import Mathlib

/-!
Verification of the trade-copier replication core of this repository.

The repository contains three variants of the same Node/Express copier
server; each is shallowly embedded below as a pure state-transition
system:

* `MainSrv`  — `src/server.js` (in-memory store, `seenEventKey` dedup map,
  cursor-based delivery, size/age cleanup on push);
* `MemSrv`   — `src/unnamed/part_000` (in-memory store, per-uid
  OPEN/CLOSE state machine, cursor + lastAck delivery);
* `DiskSrv`  — `src/unnamed/part_001` (disk-backed store, find-based
  dedup, per-event ack maps, ack-triggered garbage collection).

Modelling conventions, shared by all three embeddings:

* JavaScript `Map` objects / plain objects used as dictionaries are
  modelled as association lists (`List (κ × α)`) with JS `Map.set`
  semantics: an existing key is updated in place, a new key is appended,
  preserving insertion order.
* Composite string keys such as `` `${group}|${slaveId}` `` are modelled
  as pairs.  This is faithful whenever the components do not themselves
  contain the separator character, which no claim depends on.
* JS numbers appearing as event ids are Nat; other numeric fields are
  Int.  Where the code can observe `NaN` from `Number(...)` conversion of
  a request parameter (poll cursors and limits), the parameter is
  modelled as `Option Int` with `none` playing the role of `NaN`: every
  comparison against `none` is false, and `Math.min`/`Math.max`
  propagate `none`, exactly like NaN.  Fractional values are outside the
  model; no claim depends on them.
* Wall-clock time (`Date.now()`) is an explicit `now : Nat` argument.
* Transport-level authentication and the admin/dashboard endpoints are
  external collaborators per the specification and are not modelled;
  handlers are embedded from the point where authentication has passed.
* File persistence in `DiskSrv` is synchronous and total in the source;
  the only state-relevant effect of `saveCopier` is its 50000-event trim,
  which is modelled.
-/

set_option maxHeartbeats 1000000
set_option maxRecDepth 2000

/-- Association-list lookup, i.e. JS `Map.get` / object property read. -/
def getKV {κ α : Type} [DecidableEq κ] : List (κ × α) → κ → Option α
  | [], _ => none
  | (k0, v0) :: rest, k => if k0 = k then some v0 else getKV rest k

/-- Association-list update, i.e. JS `Map.set` / object property write:
update in place when the key is present, append otherwise. -/
def setKV {κ α : Type} [DecidableEq κ] : List (κ × α) → κ → α → List (κ × α)
  | [], k, v => [(k, v)]
  | (k0, v0) :: rest, k, v =>
      if k0 = k then (k0, v) :: rest else (k0, v0) :: setKV rest k v

/-- Association-list removal, i.e. JS `Map.delete`. -/
def delKV {κ α : Type} [DecidableEq κ] : List (κ × α) → κ → List (κ × α)
  | [], _ => []
  | (k0, v0) :: rest, k => if k0 = k then rest else (k0, v0) :: delKV rest k

theorem getKV_setKV_self {κ α : Type} [DecidableEq κ] (m : List (κ × α)) (k : κ) (v : α) :
    getKV (setKV m k v) k = some v := by
  induction m with
  | nil => simp [getKV, setKV]
  | cons hd tl ih =>
      obtain ⟨k0, v0⟩ := hd
      by_cases h : k0 = k
      · simp [getKV, setKV, h]
      · simp [getKV, setKV, h, ih]

theorem getKV_setKV_ne {κ α : Type} [DecidableEq κ] (m : List (κ × α)) {k k' : κ} (v : α)
    (h : k ≠ k') : getKV (setKV m k v) k' = getKV m k' := by
  induction m with
  | nil => simp [getKV, setKV, h]
  | cons hd tl ih =>
      obtain ⟨k0, v0⟩ := hd
      by_cases h0 : k0 = k
      · subst h0
        simp [getKV, setKV, h]
      · simp only [setKV, if_neg h0, getKV]
        by_cases h1 : k0 = k'
        · simp [h1]
        · simp [h1, ih]

theorem getKV_delKV_ne {κ α : Type} [DecidableEq κ] (m : List (κ × α)) {k k' : κ}
    (h : k ≠ k') : getKV (delKV m k) k' = getKV m k' := by
  induction m with
  | nil => simp [delKV]
  | cons hd tl ih =>
      obtain ⟨k0, v0⟩ := hd
      by_cases h0 : k0 = k
      · subst h0
        simp [delKV, getKV, h]
      · simp only [delKV, if_neg h0, getKV]
        by_cases h1 : k0 = k'
        · simp [h1]
        · simp [h1, ih]

/-- `Number(...)` value of a request parameter restricted to integral
values; `none` encodes `NaN` (a non-numeric query-string value). -/
abbrev JNum := Option Int

/-- JS `a <= n` for a possibly-NaN right operand: false on NaN. -/
def jLe (a : Int) (n : JNum) : Bool :=
  match n with
  | some v => a ≤ v
  | none => false

/-- JS `a >= n` for a possibly-NaN right operand: false on NaN. -/
def jGe (a : Int) (n : JNum) : Bool :=
  match n with
  | some v => v ≤ a
  | none => false

/-- JS `Math.min(n, c)`: NaN propagates. -/
def jMinC (n : JNum) (c : Int) : JNum := n.map (fun v => min v c)

/-- JS `Math.max(c, n)`: NaN propagates. -/
def jMaxC (c : Int) (n : JNum) : JNum := n.map (fun v => max c v)

/-- JS `String(x || d)` defaulting of a string field. -/
def defStr (v d : String) : String := if v = "" then d else v

/-- Per-slave acknowledgment record stored inside an event
(`{status, err, ts}`). -/
structure AckEntry where
  status : String
  err : String
  ts : Nat
deriving DecidableEq

/-!
## `MemSrv` — embedding of `src/unnamed/part_000`

Copier section of the in-memory "MT4 Account Manager" server: the
`/copier/push`, `/copier/ack` and `/copier/events` handlers together
with `copierCleanup`.  The store consists of `copierNextEventId`,
`copierEvents`, `copierLastAckBySlave` and `copierUidState`.
-/

namespace MemSrv

/-- One entry of `copierUidState`: `{ open, lastType, ts }`.  The JS
field `open` is called `opn` here because `open` is a Lean keyword. -/
structure UidState where
  opn : Bool
  lastType : String
  ts : Nat
deriving DecidableEq

/-- An event payload as pushed onto `copierEvents`. -/
structure Event where
  event_id : Nat
  group : String
  type : String
  uid : String
  master_ticket : Int
  open_time : Int
  symbol : String
  cmd : Int
  lot : Int
  price : Int
  ts : Nat
deriving DecidableEq

/-- The copier store of `part_000`. -/
structure State where
  nextEventId : Nat
  events : List Event
  lastAck : List ((String × String) × Int)
  uidState : List ((String × String) × UidState)
deriving DecidableEq

/-- Fresh store at process start. -/
def initState : State := ⟨1, [], [], []⟩

/-- Request body of `POST /copier/push` after `Number`/`String`
coercion of its fields. -/
structure PushBody where
  group : String
  type : String
  uid : String
  master_ticket : Int
  open_time : Int
  symbol : String
  cmd : Int
  lot : Int
  price : Int
deriving DecidableEq

/-- Response of `POST /copier/push`: `{ok:true, event_id}` on creation,
`{ok:true, duplicated:true, reason}` on an idempotency rejection, or a
400 error. -/
inductive PushResp
  | created (event_id : Nat)
  | dup (reason : String)
  | errType
  | errMissing
deriving DecidableEq

/-- `COPIER_MAX_EVENTS`. -/
def MAX_EVENTS : Nat := 50000

/-- 7 days in milliseconds, the `copierUidState` retention window. -/
def UID_AGE_MS : Nat := 7 * 24 * 3600 * 1000

/-- `copierCleanup()`: drop uid states older than 7 days and trim the
event array to the last `COPIER_MAX_EVENTS` entries.  `now - UID_AGE_MS`
is truncated Nat subtraction; in JS the cutoff would be negative for
small `now` and the age test false, which coincides with the `ts < 0`
test being false here. -/
def cleanup (s : State) (now : Nat) : State :=
  let cutoff := now - UID_AGE_MS
  let us := s.uidState.filter (fun kv => ¬ (kv.2.ts < cutoff))
  let es := if MAX_EVENTS < s.events.length
    then s.events.drop (s.events.length - MAX_EVENTS) else s.events
  { s with uidState := us, events := es }

/-- Shared tail of the push handler once the uid state machine has
accepted the transition: assign `copierNextEventId++`, append the
payload and run `copierCleanup`. -/
def pushCreate (s : State) (now : Nat) (group : String) (b : PushBody) :
    State × PushResp :=
  let ev : Event :=
    { event_id := s.nextEventId, group := group, type := b.type, uid := b.uid,
      master_ticket := b.master_ticket, open_time := b.open_time,
      symbol := b.symbol, cmd := b.cmd, lot := b.lot, price := b.price,
      ts := now }
  (cleanup { s with nextEventId := s.nextEventId + 1,
                    events := s.events ++ [ev] } now,
   .created ev.event_id)

/-- `POST /copier/push`.  Validation: the type must be OPEN or CLOSE,
then uid/master_ticket/open_time/symbol must be present and cmd ≥ 0.
The per-uid state machine then decides acceptance. -/
def push (s : State) (now : Nat) (b : PushBody) : State × PushResp :=
  let group := defStr b.group "G1"
  if b.type ≠ "OPEN" ∧ b.type ≠ "CLOSE" then (s, .errType)
  else if b.uid = "" ∨ b.master_ticket = 0 ∨ b.open_time = 0 ∨
      b.symbol = "" ∨ b.cmd < 0 then (s, .errMissing)
  else
    let ukey := (group, b.uid)
    let st := (getKV s.uidState ukey).getD ⟨false, "", 0⟩
    if b.type = "OPEN" then
      if st.opn then (s, .dup "OPEN_ALREADY")
      else pushCreate
        { s with uidState := setKV s.uidState ukey ⟨true, "OPEN", now⟩ }
        now group b
    else
      if st.opn = false then (s, .dup "CLOSE_WITHOUT_OPEN")
      else if st.lastType = "CLOSE" then (s, .dup "CLOSE_ALREADY")
      else pushCreate
        { s with uidState := setKV s.uidState ukey ⟨false, "CLOSE", now⟩ }
        now group b

/-- Response of `POST /copier/ack`. -/
inductive AckResp
  | ok (last_ack : Int)
  | errMissing
deriving DecidableEq

/-- `POST /copier/ack`: record `lastAckEventId = max(last, event_id)`
for the `group|slaveId` key.  Nothing else is touched. -/
def ack (s : State) (g sid : String) (eid : Int) : State × AckResp :=
  let group := defStr g "G1"
  let slaveId := defStr sid "S01"
  if eid = 0 then (s, .errMissing)
  else
    let k := (group, slaveId)
    let last := (getKV s.lastAck k).getD 0
    let s' := if last < eid then { s with lastAck := setKV s.lastAck k eid } else s
    (s', .ok ((getKV s'.lastAck k).getD 0))

/-- Delivery loop of `GET /copier/events`: in array order, skip other
groups, ids at or below the cursor, and ids at or below the slave's
last ack; push the event and stop once `out.length >= limit` (which is
never true when the limit is NaN).  `n` is `out.length` so far. -/
def pollLoop (g : String) (since : JNum) (la : Int) (limit : JNum) :
    List Event → Nat → List Event
  | [], _ => []
  | ev :: rest, n =>
      if ev.group ≠ g then pollLoop g since la limit rest n
      else if jLe (ev.event_id : Int) since then pollLoop g since la limit rest n
      else if (ev.event_id : Int) ≤ la then pollLoop g since la limit rest n
      else if jGe ((n + 1 : Nat) : Int) limit then [ev]
      else ev :: pollLoop g since la limit rest (n + 1)

/-- The slave's recorded last ack, with the handler's parameter
defaulting applied. -/
def lastAckOf (s : State) (g sid : String) : Int :=
  (getKV s.lastAck (defStr g "G1", defStr sid "S01")).getD 0

/-- `GET /copier/events`: `limit = Math.min(Number(limit || 200), 500)`
with no lower clamp, then the delivery loop.  The handler reads no
clock and performs no writes. -/
def poll (s : State) (g sid : String) (since : JNum) (limitRaw : JNum) :
    List Event :=
  let group := defStr g "G1"
  let limit := jMinC limitRaw 500
  let la := lastAckOf s g sid
  pollLoop group since la limit s.events 0

/-- One request-level transition of the `part_000` copier store
(`GET /copier/events` does not write). -/
inductive Step : State → State → Prop
  | ofPush (s : State) (now : Nat) (b : PushBody) : Step s (push s now b).1
  | ofAck (s : State) (g sid : String) (eid : Int) : Step s (ack s g sid eid).1

/-- Reflexive-transitive closure of `Step`. -/
def Steps : State → State → Prop := Relation.ReflTransGen Step

end MemSrv

example :
    (MemSrv.push MemSrv.initState 0
      ⟨"G1", "OPEN", "U1", 100, 5, "EURUSD", 0, 1, 1⟩).2 =
    .created 1 := by decide

example :
    (MemSrv.push
      (MemSrv.push MemSrv.initState 0
        ⟨"G1", "OPEN", "U1", 100, 5, "EURUSD", 0, 1, 1⟩).1 1
      ⟨"G1", "CLOSE", "U1", 100, 5, "EURUSD", 0, 1, 1⟩).2 =
    .created 2 := by decide

/-!
## `MainSrv` — embedding of `src/server.js`

Cloud-copier section: stores `nextEventId`, `groupEvents`,
`seenEventKey`, `slaveLastAck`, `groupSlaves`; handlers
`POST /copier/push`, `POST /copier/registerSlave`, `GET /copier/events`,
`POST /copier/ack`; helper `cleanupGroup`.  `normalizeEvent` is the
string/number coercion of the request body and is reflected in the field
types of `PushBody`.
-/

namespace MainSrv

/-- The `group|type|uid` string key of `seenEventKey`, as a triple. -/
abbrev SKey := String × String × String

/-- An event row of a group's array, including its mutable `ack` map and
the `_key` back-reference into `seenEventKey`. -/
structure Event where
  id : Nat
  group : String
  type : String
  ts : Nat
  master_ticket : Int
  open_time : Int
  uid : String
  symbol : String
  cmd : Int
  lots : Int
  price : Int
  sl : Int
  tp : Int
  magic : Int
  ack : List (String × AckEntry)
  key : SKey
deriving DecidableEq

/-- The wire form of an event returned by `GET /copier/events` (the
handler strips `_key` and `ack`). -/
structure Wire where
  id : Nat
  group : String
  type : String
  ts : Nat
  master_ticket : Int
  open_time : Int
  uid : String
  symbol : String
  cmd : Int
  lots : Int
  price : Int
  sl : Int
  tp : Int
  magic : Int
deriving DecidableEq

/-- Projection performed by the delivery handler's `out.push({...})`. -/
def toWire (ev : Event) : Wire :=
  { id := ev.id, group := ev.group, type := ev.type, ts := ev.ts,
    master_ticket := ev.master_ticket, open_time := ev.open_time,
    uid := ev.uid, symbol := ev.symbol, cmd := ev.cmd, lots := ev.lots,
    price := ev.price, sl := ev.sl, tp := ev.tp, magic := ev.magic }

/-- The copier store of `src/server.js`. -/
structure State where
  nextEventId : Nat
  groupEvents : List (String × List Event)
  seenEventKey : List (SKey × Nat)
  slaveLastAck : List ((String × String) × Int)
  groupSlaves : List (String × List String)
deriving DecidableEq

/-- Fresh store at process start. -/
def initState : State := ⟨1, [], [], [], []⟩

/-- Request body of `POST /copier/push` after `normalizeEvent` (strings
trimmed, type upper-cased, numbers coerced). -/
structure PushBody where
  group : String
  type : String
  master_ticket : Int
  open_time : Int
  uid : String
  symbol : String
  cmd : Int
  lots : Int
  price : Int
  sl : Int
  tp : Int
  magic : Int
deriving DecidableEq

/-- Response of `POST /copier/push`: `{ok,id}`, `{ok,id,dup:true}`, or a
400 error. -/
inductive PushResp
  | created (id : Nat)
  | dup (id : Nat)
  | errMissing
  | errBadType
  | errBadGroup
deriving DecidableEq

/-- `getGroupArr`: `null` for an empty group name, otherwise the group's
array, creating an empty one (a state change) on first use. -/
def getGroupArrS (s : State) (g : String) : State × Option (List Event) :=
  if g = "" then (s, none)
  else
    match getKV s.groupEvents g with
    | some arr => (s, some arr)
    | none => ({ s with groupEvents := setKV s.groupEvents g [] }, some [])

/-- The events currently stored for a group (empty when absent). -/
def eventsOf (s : State) (g : String) : List Event :=
  (getKV s.groupEvents g).getD []

/-- The slave's recorded last ack (0 when absent). -/
def lastAckOf (s : State) (g sid : String) : Int :=
  (getKV s.slaveLastAck (g, sid)).getD 0

/-- `ensureGroupSlaves(group).add(slaveId)`. -/
def addSlave (s : State) (g sid : String) : State :=
  let cur := (getKV s.groupSlaves g).getD []
  let cur' := if sid ∈ cur then cur else cur ++ [sid]
  { s with groupSlaves := setKV s.groupSlaves g cur' }

/-- Hard cap of `cleanupGroup`. -/
def MAX_EVENTS : Nat := 20000

/-- 14 days in milliseconds, the age cutoff of `cleanupGroup`. -/
def AGE_MS : Nat := 14 * 24 * 3600 * 1000

/-- The `while` loop of `cleanupGroup`: shift events older than the
cutoff off the front of the array, deleting each one's `_key` from
`seenEventKey`. -/
def dropOldLoop (cutoff : Nat) :
    List Event → List (SKey × Nat) → List Event × List (SKey × Nat)
  | [], seen => ([], seen)
  | ev :: rest, seen =>
      if ev.ts < cutoff then dropOldLoop cutoff rest (delKV seen ev.key)
      else (ev :: rest, seen)

/-- `cleanupGroup(group)`: keep the last 20000 events, then age out
events older than 14 days from the front.  As in the source, the size
cap does not delete `seenEventKey` entries but the age loop does. -/
def cleanupGroup (s : State) (now : Nat) (g : String) : State :=
  let p := getGroupArrS s g
  match p.2 with
  | none => p.1
  | some arr =>
      let arr1 := if MAX_EVENTS < arr.length
        then arr.drop (arr.length - MAX_EVENTS) else arr
      let cutoff := now - AGE_MS
      let q := dropOldLoop cutoff arr1 p.1.seenEventKey
      { p.1 with groupEvents := setKV p.1.groupEvents g q.1,
                 seenEventKey := q.2 }

/-- `const uid = ev0.uid || `${ev0.master_ticket}_${ev0.open_time || 0}``. -/
def pushUid (b : PushBody) : String :=
  if b.uid = "" then toString b.master_ticket ++ "_" ++ toString b.open_time
  else b.uid

/-- The `group|type|uid` dedup key a push request derives. -/
def pushKey (b : PushBody) : SKey := (b.group, b.type, pushUid b)

/-- `if (prev) ...`: the JS truthiness test on `seenEventKey.get(key)`
(`undefined` and `0` are falsy). -/
def seenTruthy (o : Option Nat) : Option Nat :=
  match o with
  | some p => if p = 0 then none else some p
  | none => none

/-- `POST /copier/push`: validate, derive the dedup key, answer `dup`
from `seenEventKey` when hit, otherwise append a new event, register its
key and run `cleanupGroup`. -/
def push (s : State) (now : Nat) (b : PushBody) : State × PushResp :=
  if b.group = "" ∨ b.type = "" ∨ b.symbol = "" ∨ b.master_ticket = 0 then
    (s, .errMissing)
  else if b.type ≠ "OPEN" ∧ b.type ≠ "CLOSE" ∧ b.type ≠ "MODIFY" then
    (s, .errBadType)
  else
    let key := pushKey b
    match seenTruthy (getKV s.seenEventKey key) with
    | some prev => (s, .dup prev)
    | none =>
        let p := getGroupArrS s b.group
        match p.2 with
        | none => (p.1, .errBadGroup)
        | some arr =>
            let ev : Event :=
              { id := p.1.nextEventId, group := b.group, type := b.type,
                ts := now, master_ticket := b.master_ticket,
                open_time := b.open_time, uid := pushUid b,
                symbol := b.symbol, cmd := b.cmd, lots := b.lots,
                price := b.price, sl := b.sl, tp := b.tp, magic := b.magic,
                ack := [], key := key }
            let s2 := { p.1 with
              nextEventId := p.1.nextEventId + 1,
              groupEvents := setKV p.1.groupEvents b.group (arr ++ [ev]),
              seenEventKey := setKV p.1.seenEventKey key ev.id }
            (cleanupGroup s2 now b.group, .created ev.id)

/-- `POST /copier/registerSlave`: add the slave to the group set and
initialise its last-ack entry to 0 when absent. -/
def registerSlave (s : State) (g sid : String) : State :=
  let s1 := addSlave s g sid
  match getKV s1.slaveLastAck (g, sid) with
  | some _ => s1
  | none => { s1 with slaveLastAck := setKV s1.slaveLastAck (g, sid) 0 }

/-- `const limit = Math.max(1, Math.min(500, Number.isFinite(limitRaw) ?
limitRaw : 200))`. -/
def clampLimit (limitRaw : JNum) : Int :=
  max 1 (min 500 (match limitRaw with | some v => v | none => 200))

/-- Delivery loop of `GET /copier/events`: the `for` condition re-checks
`out.length < limit` before every element; rows with a falsy id are
skipped, as are ids at or below `effSince`.  `n` is `out.length`. -/
def pollLoop (effSince : Int) (limit : Int) : List Event → Nat → List Wire
  | [], _ => []
  | ev :: rest, n =>
      if ¬ ((n : Int) < limit) then []
      else if ev.id = 0 then pollLoop effSince limit rest n
      else if (ev.id : Int) ≤ effSince then pollLoop effSince limit rest n
      else toWire ev :: pollLoop effSince limit rest (n + 1)

/-- `GET /copier/events`: clamp the limit, register the polling slave,
compute `effSince = max(Number.isFinite(since) ? since : 0, lastAck)`
and run the delivery loop. -/
def poll (s : State) (g sid : String) (since : JNum) (limitRaw : JNum) :
    State × List Wire :=
  let limit := clampLimit limitRaw
  let s1 := addSlave s g sid
  let p := getGroupArrS s1 g
  let arr := p.2.getD []
  let lastAck := lastAckOf p.1 g sid
  let sinceV : Int := match since with | some v => v | none => 0
  let effSince := max sinceV lastAck
  (p.1, pollLoop effSince limit arr 0)

/-- Response of `POST /copier/ack`. -/
inductive AckResp
  | ok
  | errMissing
deriving DecidableEq

/-- The backwards `for` loop of the ack handler: record the ack on the
*last* event of the array whose id matches. -/
def recordAckLast (sid status err : String) (ts : Nat) (eid : Int) :
    List Event → List Event
  | [] => []
  | ev :: rest =>
      if rest.any (fun e => (e.id : Int) == eid) then
        ev :: recordAckLast sid status err ts eid rest
      else if (ev.id : Int) = eid then
        { ev with ack := setKV ev.ack sid ⟨status, err, ts⟩ } :: rest
      else ev :: rest

/-- `POST /copier/ack`: reject a falsy event id, register the slave,
raise `slaveLastAck` to the acked id when larger, and record the ack
inside the event when it still exists. -/
def ack (s : State) (now : Nat) (g sid : String) (eid : Int)
    (status err : String) : State × AckResp :=
  if eid = 0 then (s, .errMissing)
  else
    let s1 := addSlave s g sid
    let prev := lastAckOf s1 g sid
    let s2 := if prev < eid
      then { s1 with slaveLastAck := setKV s1.slaveLastAck (g, sid) eid }
      else s1
    let p := getGroupArrS s2 g
    match p.2 with
    | none => (p.1, .ok)
    | some arr =>
        let arr' := recordAckLast sid status err now eid arr
        ({ p.1 with groupEvents := setKV p.1.groupEvents g arr' }, .ok)

/-- One request-level transition of the `src/server.js` copier store. -/
inductive Step : State → State → Prop
  | ofPush (s : State) (now : Nat) (b : PushBody) : Step s (push s now b).1
  | ofReg (s : State) (g sid : String) : Step s (registerSlave s g sid)
  | ofPoll (s : State) (g sid : String) (since limitRaw : JNum) :
      Step s (poll s g sid since limitRaw).1
  | ofAck (s : State) (now : Nat) (g sid : String) (eid : Int)
      (status err : String) : Step s (ack s now g sid eid status err).1

/-- States reachable from process start by request handling. -/
inductive Reachable : State → Prop
  | init : Reachable initState
  | step {s t : State} : Reachable s → Step s t → Reachable t

/-- Reflexive-transitive closure of `Step`. -/
def Steps : State → State → Prop := Relation.ReflTransGen Step

end MainSrv

example :
    (MainSrv.push MainSrv.initState 0
      ⟨"G1", "OPEN", 100, 5, "", "EURUSD", 0, 1, 1, 0, 0, 7⟩).2 =
    .created 1 := by decide

example :
    (MainSrv.push
      (MainSrv.push MainSrv.initState 0
        ⟨"G1", "OPEN", 100, 5, "", "EURUSD", 0, 1, 1, 0, 0, 7⟩).1 1
      ⟨"G1", "OPEN", 100, 5, "", "EURUSD", 0, 1, 1, 0, 0, 7⟩).2 =
    .dup 1 := by decide

/-!
## `DiskSrv` — embedding of `src/unnamed/part_001` (disk variant)

Copier section of the "Copier SaaS" server: store `copier`
(`nextId`, `events`, `lastMasterEquityByGroup`) and `slaves`
(`group|slaveId -> {lastAckId, lastSeenAt}`); handlers
`POST /copier/push`, `POST /copier/registerSlave`, `GET /copier/events`,
`POST /copier/ack`.  `writeJsonSafe` always succeeds; the only
state-relevant part of `saveCopier` is its trim to the last 50000
events.  Client binding (`requireClientOptional`, `boundSlaveId`) is the
external subscription collaborator and is not modelled; the handlers are
embedded along their no-api-key path, which performs the same core
mutations.
-/

namespace DiskSrv

/-- One record of `slaves.slaves`. -/
structure SlaveRec where
  lastAckId : Int
  lastSeenAt : Nat
deriving DecidableEq

/-- An event row of `copier.events`, with its per-slave `acks` map.
Events created by the code always carry an `acks` object, so the
`!ev2.acks` guard of the GC filter (which tests for a missing field) is
identically false and the map is total here. -/
structure Event where
  id : Nat
  group : String
  type : String
  ts : Nat
  master_ticket : Int
  open_time : Int
  symbol : String
  cmd : Int
  lots : Int
  price : Int
  sl : Int
  tp : Int
  magic : Int
  comment : String
  master_equity : Int
  acks : List (String × AckEntry)
deriving DecidableEq

/-- The copier + slave-registry store of the disk variant. -/
structure State where
  nextId : Nat
  events : List Event
  lastEquity : List (String × Int)
  slaves : List ((String × String) × SlaveRec)
deriving DecidableEq

/-- Fresh store (the `readJsonSafe` fallbacks). -/
def initState : State := ⟨1, [], [], []⟩

/-- `getSlaveIdsForGroup`: the slave ids whose `group|slaveId` key
belongs to the group, skipping empty ids, in registry order. -/
def slaveIdsFor (g : String) (sl : List ((String × String) × SlaveRec)) :
    List String :=
  sl.filterMap (fun kv => if kv.1.1 = g ∧ kv.1.2 ≠ "" then some kv.1.2 else none)

/-- The `(group, type, master_ticket, open_time)` dedup key of a row. -/
def dKey (ev : Event) : String × String × Int × Int :=
  (ev.group, ev.type, ev.master_ticket, ev.open_time)

/-- `saveCopier()`'s bound: keep the last 50000 events. -/
def trim50k (l : List Event) : List Event :=
  if 50000 < l.length then l.drop (l.length - 50000) else l

/-- Request body of `POST /copier/push` after coercion. -/
structure PushBody where
  group : String
  type : String
  master_ticket : Int
  open_time : Int
  symbol : String
  cmd : Int
  lots : Int
  price : Int
  sl : Int
  tp : Int
  magic : Int
  comment : String
  master_equity : Int
deriving DecidableEq

/-- Response of `POST /copier/push`. -/
inductive PushResp
  | created (id : Nat)
  | dup (id : Nat)
  | errMissingGT
  | errMissingTS
deriving DecidableEq

/-- `POST /copier/push`: validate, apply the last-known-equity fallback,
dedup by `events.find` on `(group, type, master_ticket, open_time)`,
otherwise append with `copier.nextId++`, update the group equity when
positive, and `saveCopier()`. -/
def push (s : State) (now : Nat) (b : PushBody) : State × PushResp :=
  if b.group = "" ∨ b.type = "" then (s, .errMissingGT)
  else if b.master_ticket = 0 ∨ b.symbol = "" then (s, .errMissingTS)
  else
    let me := if b.master_equity ≤ 0
      then (getKV s.lastEquity b.group).getD 0 else b.master_equity
    match s.events.find? (fun x =>
        decide (x.group = b.group ∧ x.type = b.type ∧
          x.master_ticket = b.master_ticket ∧ x.open_time = b.open_time)) with
    | some x => (s, .dup x.id)
    | none =>
        let ev : Event :=
          { id := s.nextId, group := b.group, type := b.type, ts := now,
            master_ticket := b.master_ticket, open_time := b.open_time,
            symbol := b.symbol, cmd := b.cmd, lots := b.lots,
            price := b.price, sl := b.sl, tp := b.tp, magic := b.magic,
            comment := b.comment, master_equity := me, acks := [] }
        let le := if 0 < me then setKV s.lastEquity b.group me else s.lastEquity
        ({ nextId := s.nextId + 1, events := trim50k (s.events ++ [ev]),
           lastEquity := le, slaves := s.slaves }, .created ev.id)

/-- `POST /copier/registerSlave` (core part): upsert the slave record
and stamp `lastSeenAt`.  Returns whether the request passed validation. -/
def registerSlave (s : State) (now : Nat) (g sid : String) : State × Bool :=
  if g = "" ∨ sid = "" then (s, false)
  else
    let r0 := (getKV s.slaves (g, sid)).getD ⟨0, 0⟩
    ({ s with slaves := setKV s.slaves (g, sid) ⟨r0.lastAckId, now⟩ }, true)

/-- The slave's recorded `lastAckId` (0 when absent). -/
def lastAckOf (s : State) (g sid : String) : Int :=
  ((getKV s.slaves (g, sid)).getD ⟨0, 0⟩).lastAckId

/-- `const limit = Math.min(500, Math.max(1, Number(limit || 200)))`;
NaN propagates through both. -/
def clampLimit (raw : JNum) : JNum := jMinC (jMaxC 1 raw) 500

/-- Delivery loop of `GET /copier/events`: skip other groups, ids at or
below the cursor (false on NaN), and events already acked by this slave;
push, then break once `out.length >= limit` (never on NaN). -/
def pollLoop (g sid : String) (since limit : JNum) :
    List Event → Nat → List Event
  | [], _ => []
  | ev :: rest, n =>
      if ev.group ≠ g then pollLoop g sid since limit rest n
      else if jLe (ev.id : Int) since then pollLoop g sid since limit rest n
      else if (getKV ev.acks sid).isSome then pollLoop g sid since limit rest n
      else if jGe ((n + 1 : Nat) : Int) limit then [ev]
      else ev :: pollLoop g sid since limit rest (n + 1)

/-- `GET /copier/events`: validate, upsert the slave record, and run the
delivery loop; `none` is the 400 response. -/
def poll (s : State) (now : Nat) (g sid : String) (since limitRaw : JNum) :
    State × Option (List Event) :=
  if g = "" ∨ sid = "" then (s, none)
  else
    let limit := clampLimit limitRaw
    let r0 := (getKV s.slaves (g, sid)).getD ⟨0, 0⟩
    let s1 := { s with slaves := setKV s.slaves (g, sid) ⟨r0.lastAckId, now⟩ }
    (s1, some (pollLoop g sid since limit s1.events 0))

/-- `copier.events.find(x => Number(x.id) === event_id && x.group ===
group)` followed by the in-place ack write: update the first matching
event. -/
def recFirst (g sid status err : String) (ts : Nat) (eid : Int) :
    List Event → List Event
  | [] => []
  | ev :: rest =>
      if (ev.id : Int) = eid ∧ ev.group = g then
        { ev with acks := setKV ev.acks sid ⟨status, err, ts⟩ } :: rest
      else ev :: recFirst g sid status err ts eid rest

/-- The GC filter's keep-predicate: keep an event of another group, or
one that some currently-known slave has not acked. -/
def gcKeep (g : String) (ids : List String) (ev : Event) : Bool :=
  ev.group != g || ids.any (fun sid => (getKV ev.acks sid).isNone)

/-- Response of `POST /copier/ack`. -/
inductive AckResp
  | ok
  | errMissing
deriving DecidableEq

/-- `POST /copier/ack`: validate, upsert the slave record with
`lastAckId = max(lastAckId, event_id)`, record the ack inside the first
matching event (running `saveCopier`'s trim when one was found), then —
when the group has known slaves — drop every event of the group acked by
all of them and trim again. -/
def ack (s : State) (now : Nat) (g sid : String) (eid : Int)
    (status err : String) : State × AckResp :=
  if g = "" ∨ sid = "" ∨ eid = 0 ∨ status = "" then (s, .errMissing)
  else
    let r0 := (getKV s.slaves (g, sid)).getD ⟨0, 0⟩
    let s1 := { s with
      slaves := setKV s.slaves (g, sid) ⟨max r0.lastAckId eid, now⟩ }
    let found := s1.events.any (fun x => decide ((x.id : Int) = eid ∧ x.group = g))
    let es1 := recFirst g sid status err now eid s1.events
    let es1T := if found then trim50k es1 else es1
    let ids := slaveIdsFor g s1.slaves
    let es2 := if ids = [] then es1T else trim50k (es1T.filter (gcKeep g ids))
    ({ s1 with events := es2 }, .ok)

/-- One request-level transition of the disk-variant store. -/
inductive Step : State → State → Prop
  | ofPush (s : State) (now : Nat) (b : PushBody) : Step s (push s now b).1
  | ofReg (s : State) (now : Nat) (g sid : String) :
      Step s (registerSlave s now g sid).1
  | ofPoll (s : State) (now : Nat) (g sid : String) (since limitRaw : JNum) :
      Step s (poll s now g sid since limitRaw).1
  | ofAck (s : State) (now : Nat) (g sid : String) (eid : Int)
      (status err : String) : Step s (ack s now g sid eid status err).1

/-- States reachable from process start by request handling. -/
inductive Reachable : State → Prop
  | init : Reachable initState
  | step {s t : State} : Reachable s → Step s t → Reachable t

end DiskSrv

example :
    (DiskSrv.push
      (DiskSrv.push DiskSrv.initState 0
        ⟨"G1", "OPEN", 100, 5, "EURUSD", 0, 1, 1, 0, 0, 7, "", 50⟩).1 1
      ⟨"G1", "OPEN", 100, 5, "EURUSD", 9, 9, 9, 9, 9, 9, "x", 0⟩).2 =
    .dup 1 := by decide

example :
    ((DiskSrv.ack
      (DiskSrv.push DiskSrv.initState 0
        ⟨"G1", "OPEN", 100, 5, "EURUSD", 0, 1, 1, 0, 0, 7, "", 50⟩).1
      2 "G1" "A" 1 "DONE" "").1).events = [] := by decide

/-! ### Effect lemmas for `MainSrv.getGroupArrS` -/

theorem ms_getGroupArrS_nextEventId (s : MainSrv.State) (g : String) :
    (MainSrv.getGroupArrS s g).1.nextEventId = s.nextEventId := by
  unfold MainSrv.getGroupArrS
  split
  · rfl
  · split <;> rfl

theorem ms_getGroupArrS_seen (s : MainSrv.State) (g : String) :
    (MainSrv.getGroupArrS s g).1.seenEventKey = s.seenEventKey := by
  unfold MainSrv.getGroupArrS
  split
  · rfl
  · split <;> rfl

theorem ms_getGroupArrS_lastAck (s : MainSrv.State) (g : String) :
    (MainSrv.getGroupArrS s g).1.slaveLastAck = s.slaveLastAck := by
  unfold MainSrv.getGroupArrS
  split
  · rfl
  · split <;> rfl

theorem ms_getGroupArrS_eventsOf (s : MainSrv.State) (g g' : String) :
    MainSrv.eventsOf (MainSrv.getGroupArrS s g).1 g' = MainSrv.eventsOf s g' := by
  unfold MainSrv.getGroupArrS
  split
  · rfl
  next hg =>
    cases hk : getKV s.groupEvents g with
    | some arr => simp
    | none =>
        unfold MainSrv.eventsOf
        by_cases he : g = g'
        · subst he
          simp [getKV_setKV_self, hk]
        · simp [getKV_setKV_ne _ _ he]

theorem ms_getGroupArrS_snd (s : MainSrv.State) {g : String} (hg : g ≠ "") :
    (MainSrv.getGroupArrS s g).2 = some (MainSrv.eventsOf s g) := by
  unfold MainSrv.getGroupArrS MainSrv.eventsOf
  rw [if_neg hg]
  cases hk : getKV s.groupEvents g <;> simp [hk]

theorem ms_addSlave_eventsOf (s : MainSrv.State) (g sid g' : String) :
    MainSrv.eventsOf (MainSrv.addSlave s g sid) g' = MainSrv.eventsOf s g' := rfl

theorem ms_addSlave_lastAck (s : MainSrv.State) (g sid : String) :
    (MainSrv.addSlave s g sid).slaveLastAck = s.slaveLastAck := rfl

/-! ### Easily evaluated claim instances -/

/-- The three push bodies of the C5 scenario. -/
def c5Open : MemSrv.PushBody := ⟨"G1", "OPEN", "U1", 100, 5, "EURUSD", 0, 1, 1⟩

def c5Close : MemSrv.PushBody := ⟨"G1", "CLOSE", "U1", 100, 5, "EURUSD", 0, 1, 1⟩

/-- Claim C5 (code bug): for positionKey `(G1, U1)` the sequence
`OPEN, CLOSE, CLOSE` has the third push rejected as a duplicate — but
with reason `CLOSE_WITHOUT_OPEN`, not the claimed `CLOSE_ALREADY`: the
handler tests `st.open === false` before `st.lastType === 'CLOSE'`, so
the `CLOSE_ALREADY` branch of `src/unnamed/part_000` is unreachable. -/
theorem claim_c5_close_close_reason :
    (MemSrv.push MemSrv.initState 0 c5Open).2 = .created 1 ∧
    (MemSrv.push (MemSrv.push MemSrv.initState 0 c5Open).1 1 c5Close).2 =
      .created 2 ∧
    (MemSrv.push
      (MemSrv.push (MemSrv.push MemSrv.initState 0 c5Open).1 1 c5Close).1 2
      c5Close).2 = .dup "CLOSE_WITHOUT_OPEN" ∧
    MemSrv.PushResp.dup "CLOSE_WITHOUT_OPEN" ≠ .dup "CLOSE_ALREADY" := by
  decide

/-- Push bodies for the C3 counterexample (distinct dedup keys). -/
def c3BodyA : MainSrv.PushBody := ⟨"G1", "OPEN", 100, 5, "A", "EURUSD", 0, 1, 1, 0, 0, 7⟩

def c3BodyB : MainSrv.PushBody := ⟨"G1", "OPEN", 200, 6, "B", "EURUSD", 0, 1, 1, 0, 0, 7⟩

/-- State after pushing event 1 at time 0. -/
def c3s1 : MainSrv.State := (MainSrv.push MainSrv.initState 0 c3BodyA).1

/-- State after a second push 14 days + 1 ms later. -/
def c3s2 : MainSrv.State := (MainSrv.push c3s1 (MainSrv.AGE_MS + 1) c3BodyB).1

/-- Claim C3 as stated is false on `src/server.js`: event 1 of group G1
(never acknowledged, group has zero known slaves — `groupSlaves` has no
entry at all) is removed by `cleanupGroup`'s 14-day age eviction when a
later push arrives. -/
theorem claim_c3_counterexample :
    (∃ ev ∈ MainSrv.eventsOf c3s1 "G1", ev.id = 1) ∧
    (∀ ev ∈ MainSrv.eventsOf c3s2 "G1", ev.id ≠ 1) ∧
    getKV c3s1.groupSlaves "G1" = none ∧
    getKV c3s2.groupSlaves "G1" = none ∧
    (∀ ev ∈ MainSrv.eventsOf c3s1 "G1", ev.ack = []) := by
  decide

/-- A MODIFY push body with a fresh positionKey. -/
def c8Body : MainSrv.PushBody := ⟨"G1", "MODIFY", 100, 5, "U1", "EURUSD", 0, 1, 1, 0, 0, 7⟩

/-- Claim C8 as stated is false on `src/server.js`: a MODIFY push whose
positionKey has no prior event at all (the empty initial log — ticket
state `NO_EVENT`) is accepted and appended rather than rejected as a
no-op duplicate. -/
theorem claim_c8_counterexample :
    MainSrv.eventsOf MainSrv.initState "G1" = [] ∧
    (MainSrv.push MainSrv.initState 0 c8Body).2 = .created 1 ∧
    (∃ ev ∈ MainSrv.eventsOf (MainSrv.push MainSrv.initState 0 c8Body).1 "G1",
      ev.id = 1 ∧ ev.type = "MODIFY") := by
  decide

/-- A push body and the one-event state of the C1 counterexample. -/
def c1Body : MainSrv.PushBody := ⟨"G1", "OPEN", 100, 5, "U1", "EURUSD", 0, 1, 1, 0, 0, 7⟩

def c1s : MainSrv.State := (MainSrv.push MainSrv.initState 0 c1Body).1

/-- Claim C1 as stated is false at limit 0: `src/server.js` clamps the
effective limit up to 1, so a poll with `limit=0` against a one-event
log returns one event, which is more than the requested limit. -/
theorem claim_c1_counterexample :
    ((MainSrv.poll c1s "G1" "S1" (some 0) (some 0)).2).length = 1 ∧
    ¬ (((MainSrv.poll c1s "G1" "S1" (some 0) (some 0)).2).length ≤ 0) := by
  decide

/-- Claim C6: pushing CLOSE for a positionKey with no prior state at all
is answered `{ok, duplicated:true, reason:"CLOSE_WITHOUT_OPEN"}` and the
whole store — events, next id, uid states, acks — is left unchanged. -/
theorem claim_c6_close_without_open
    (s : MemSrv.State) (now : Nat) (b : MemSrv.PushBody)
    (hty : b.type = "CLOSE") (huid : b.uid ≠ "") (ht : b.master_ticket ≠ 0)
    (hot : b.open_time ≠ 0) (hsym : b.symbol ≠ "") (hcmd : ¬ b.cmd < 0)
    (hfresh : getKV s.uidState (defStr b.group "G1", b.uid) = none) :
    MemSrv.push s now b = (s, .dup "CLOSE_WITHOUT_OPEN") := by
  simp [MemSrv.push, hty, huid, ht, hot, hsym, hcmd, hfresh]

/-- Witness for C6 at a concrete fresh store. -/
theorem claim_c6_witness :
    MemSrv.push MemSrv.initState 3 ⟨"G2", "CLOSE", "U9", 7, 8, "XAUUSD", 0, 0, 0⟩ =
      (MemSrv.initState, .dup "CLOSE_WITHOUT_OPEN") :=
  claim_c6_close_without_open MemSrv.initState 3 _ rfl (by decide) (by decide)
    (by decide) (by decide) (by decide) (by decide)

theorem ms_eventsOf_cleanupGroup_self (s2 : MainSrv.State) (now : Nat)
    {g : String} (hg : g ≠ "") :
    MainSrv.eventsOf (MainSrv.cleanupGroup s2 now g) g =
      (MainSrv.dropOldLoop (now - MainSrv.AGE_MS)
        (if MainSrv.MAX_EVENTS < (MainSrv.eventsOf s2 g).length
         then (MainSrv.eventsOf s2 g).drop
           ((MainSrv.eventsOf s2 g).length - MainSrv.MAX_EVENTS)
         else MainSrv.eventsOf s2 g) s2.seenEventKey).1 := by
  simp only [MainSrv.cleanupGroup]
  rw [ms_getGroupArrS_snd s2 hg]
  simp only [ms_getGroupArrS_seen]
  unfold MainSrv.eventsOf
  rw [getKV_setKV_self]
  rfl

theorem mem_drop_append_last {α : Type} (l : List α) (a : α) {k : Nat}
    (hk : k ≤ l.length) : a ∈ (l ++ [a]).drop k := by
  rw [List.drop_append_eq_append_drop, Nat.sub_eq_zero_of_le hk]
  simp

theorem ms_mem_dropOldLoop {cutoff : Nat} {ev : MainSrv.Event}
    (hts : ¬ (ev.ts < cutoff)) :
    ∀ (l : List MainSrv.Event) (seen : List (MainSrv.SKey × Nat)),
      ev ∈ l → ev ∈ (MainSrv.dropOldLoop cutoff l seen).1 := by
  intro l
  induction l with
  | nil => intro seen h; cases h
  | cons hd tl ih =>
      intro seen hmem
      rw [MainSrv.dropOldLoop]
      by_cases h : hd.ts < cutoff
      · rw [if_pos h]
        rcases List.mem_cons.mp hmem with he | htl
        · exact absurd (he ▸ h) hts
        · exact ih _ htl
      · rw [if_neg h]
        exact hmem

/-- Claim C8 (amended): no variant gates MODIFY on the ticket lifecycle
state.  In `src/server.js` a MODIFY that passes validation and whose
dedup key is unseen is accepted and appended regardless of any prior
OPEN/CLOSE; in `src/unnamed/part_001` a MODIFY that passes validation
and whose `(group,type,master_ticket,open_time)` dedup key matches no
stored event is likewise accepted and appended, with no ticket state
consulted; in `src/unnamed/part_000` MODIFY is always rejected with a
400 `type must be OPEN/CLOSE` validation error, even while OPEN. -/
theorem claim_c8_modify_ungated :
    (∀ (s : MainSrv.State) (now : Nat) (b : MainSrv.PushBody),
      b.type = "MODIFY" → b.group ≠ "" → b.symbol ≠ "" → b.master_ticket ≠ 0 →
      MainSrv.seenTruthy (getKV s.seenEventKey (MainSrv.pushKey b)) = none →
      (MainSrv.push s now b).2 = .created s.nextEventId ∧
      ∃ ev ∈ MainSrv.eventsOf (MainSrv.push s now b).1 b.group,
        ev.id = s.nextEventId ∧ ev.type = "MODIFY") ∧
    (∀ (s : DiskSrv.State) (now : Nat) (b : DiskSrv.PushBody),
      b.type = "MODIFY" → b.group ≠ "" → b.symbol ≠ "" → b.master_ticket ≠ 0 →
      s.events.find? (fun x =>
        decide (x.group = b.group ∧ x.type = b.type ∧
          x.master_ticket = b.master_ticket ∧ x.open_time = b.open_time)) =
        none →
      (DiskSrv.push s now b).2 = .created s.nextId ∧
      ∃ ev ∈ (DiskSrv.push s now b).1.events,
        ev.id = s.nextId ∧ ev.type = "MODIFY") ∧
    (∀ (s : MemSrv.State) (now : Nat) (b : MemSrv.PushBody),
      b.type = "MODIFY" → MemSrv.push s now b = (s, .errType)) := by
  refine ⟨?_, ?_, ?_⟩
  · intro s now b hty hg hsym ht hseen
    have hv1 : ¬ (b.group = "" ∨ b.type = "" ∨ b.symbol = "" ∨ b.master_ticket = 0) := by
      simp [hg, hsym, ht, hty]
    have hv2 : ¬ (b.type ≠ "OPEN" ∧ b.type ≠ "CLOSE" ∧ b.type ≠ "MODIFY") := by
      simp [hty]
    have harr := ms_getGroupArrS_snd s (g := b.group) hg
    simp only [MainSrv.push, hv1, hv2, hseen, harr]
    simp only [if_false]
    refine ⟨by simp [ms_getGroupArrS_nextEventId], ?_⟩
    rw [ms_eventsOf_cleanupGroup_self _ now hg]
    simp only [MainSrv.eventsOf, getKV_setKV_self, Option.getD_some]
    refine ⟨{ id := (MainSrv.getGroupArrS s b.group).1.nextEventId, group := b.group,
              type := b.type, ts := now, master_ticket := b.master_ticket,
              open_time := b.open_time, uid := MainSrv.pushUid b, symbol := b.symbol,
              cmd := b.cmd, lots := b.lots, price := b.price, sl := b.sl, tp := b.tp,
              magic := b.magic, ack := [], key := MainSrv.pushKey b },
            ms_mem_dropOldLoop (Nat.not_lt.mpr (Nat.sub_le now MainSrv.AGE_MS)) _ _ ?_,
            by simp [ms_getGroupArrS_nextEventId], hty⟩
    have hM : 1 ≤ MainSrv.MAX_EVENTS := by norm_num [MainSrv.MAX_EVENTS]
    split
    · apply mem_drop_append_last
      simp only [List.length_append, List.length_cons, List.length_nil]
      omega
    · exact List.mem_append_right _ (List.mem_singleton_self _)
  · intro s now b hty hg hsym ht hfind
    have hv1 : ¬ (b.group = "" ∨ b.type = "") := by
      simp [hg, hty]
    have hv2 : ¬ (b.master_ticket = 0 ∨ b.symbol = "") := by
      simp [ht, hsym]
    simp only [DiskSrv.push, if_neg hv1, if_neg hv2, hfind]
    set me : Int := if b.master_equity ≤ 0
      then (getKV s.lastEquity b.group).getD 0 else b.master_equity with hme
    refine ⟨trivial, ?_⟩
    refine ⟨{ id := s.nextId, group := b.group, type := b.type, ts := now,
              master_ticket := b.master_ticket, open_time := b.open_time,
              symbol := b.symbol, cmd := b.cmd, lots := b.lots,
              price := b.price, sl := b.sl, tp := b.tp, magic := b.magic,
              comment := b.comment, master_equity := me,
              acks := [] }, ?_, rfl, hty⟩
    unfold DiskSrv.trim50k
    split
    · apply mem_drop_append_last
      simp only [List.length_append, List.length_cons, List.length_nil]
      omega
    · exact List.mem_append_right _ (List.mem_singleton_self _)
  · intro s now b hty
    simp [MemSrv.push, hty]

/-- The C8 MODIFY push body for the disk-variant embedding. -/
def c8dBody : DiskSrv.PushBody :=
  ⟨"G1", "MODIFY", 100, 5, "EURUSD", 0, 1, 1, 0, 0, 7, "", 50⟩

/-- Witness for the amended C8 at concrete inputs in all three
variants. -/
theorem claim_c8_witness :
    ((MainSrv.push MainSrv.initState 0 c8Body).2 = .created 1 ∧
      ∃ ev ∈ MainSrv.eventsOf (MainSrv.push MainSrv.initState 0 c8Body).1 "G1",
        ev.id = 1 ∧ ev.type = "MODIFY") ∧
    ((DiskSrv.push DiskSrv.initState 0 c8dBody).2 = .created 1 ∧
      ∃ ev ∈ (DiskSrv.push DiskSrv.initState 0 c8dBody).1.events,
        ev.id = 1 ∧ ev.type = "MODIFY") ∧
    MemSrv.push MemSrv.initState 0 ⟨"G1", "MODIFY", "U1", 1, 1, "E", 0, 0, 0⟩ =
      (MemSrv.initState, .errType) :=
  ⟨claim_c8_modify_ungated.1 MainSrv.initState 0 c8Body rfl (by decide) (by decide)
      (by decide) rfl,
   claim_c8_modify_ungated.2.1 DiskSrv.initState 0 c8dBody rfl (by decide)
      (by decide) (by decide) rfl,
   claim_c8_modify_ungated.2.2 MemSrv.initState 0 _ rfl⟩

/-! ### Per-operation effect lemmas on `slaveLastAck` (`MainSrv`) -/

theorem ms_cleanupGroup_slaveLastAck (s : MainSrv.State) (now : Nat) (g : String) :
    (MainSrv.cleanupGroup s now g).slaveLastAck = s.slaveLastAck := by
  simp only [MainSrv.cleanupGroup]
  split <;> simp [ms_getGroupArrS_lastAck]

theorem ms_push_slaveLastAck (s : MainSrv.State) (now : Nat) (b : MainSrv.PushBody) :
    (MainSrv.push s now b).1.slaveLastAck = s.slaveLastAck := by
  simp only [MainSrv.push]
  split
  · rfl
  split
  · rfl
  split
  · rfl
  split
  · simp [ms_getGroupArrS_lastAck]
  · simp [ms_cleanupGroup_slaveLastAck, ms_getGroupArrS_lastAck]

theorem ms_poll_slaveLastAck (s : MainSrv.State) (g sid : String)
    (since limitRaw : JNum) :
    (MainSrv.poll s g sid since limitRaw).1.slaveLastAck = s.slaveLastAck := by
  simp only [MainSrv.poll, ms_getGroupArrS_lastAck, MainSrv.addSlave]

theorem ms_addSlave_lastAckOf (s : MainSrv.State) (g sid g' sid' : String) :
    MainSrv.lastAckOf (MainSrv.addSlave s g sid) g' sid' =
      MainSrv.lastAckOf s g' sid' := rfl

theorem ms_reg_lastAckOf (s : MainSrv.State) (g sid g' sid' : String) :
    MainSrv.lastAckOf (MainSrv.registerSlave s g sid) g' sid' =
      MainSrv.lastAckOf s g' sid' := by
  simp only [MainSrv.registerSlave]
  split
  · rfl
  next h =>
    unfold MainSrv.lastAckOf
    simp only [MainSrv.addSlave] at h ⊢
    by_cases he : ((g, sid) : String × String) = (g', sid')
    · rw [he] at h
      rw [he, getKV_setKV_self, h]
      rfl
    · rw [getKV_setKV_ne _ _ he]

theorem ms_ack_slaveLastAck (s : MainSrv.State) (now : Nat) (g sid : String)
    (eid : Int) (status err : String) :
    (MainSrv.ack s now g sid eid status err).1.slaveLastAck =
      if eid = 0 then s.slaveLastAck
      else if MainSrv.lastAckOf s g sid < eid then setKV s.slaveLastAck (g, sid) eid
      else s.slaveLastAck := by
  simp only [MainSrv.ack, ms_addSlave_lastAckOf]
  split
  next h => simp [h]
  next h =>
    split
    · split <;> simp [ms_getGroupArrS_lastAck, MainSrv.addSlave]
    · split <;> simp [ms_getGroupArrS_lastAck, MainSrv.addSlave]

/-! ### Per-operation effect lemmas on `slaves` (`DiskSrv`) -/

theorem ds_push_slaves (s : DiskSrv.State) (now : Nat) (b : DiskSrv.PushBody) :
    (DiskSrv.push s now b).1.slaves = s.slaves := by
  simp only [DiskSrv.push]
  split
  · rfl
  split
  · rfl
  split <;> rfl

theorem ds_reg_lastAckOf (s : DiskSrv.State) (now : Nat) (g sid g' sid' : String) :
    DiskSrv.lastAckOf (DiskSrv.registerSlave s now g sid).1 g' sid' =
      DiskSrv.lastAckOf s g' sid' := by
  simp only [DiskSrv.registerSlave]
  split
  · rfl
  · unfold DiskSrv.lastAckOf
    by_cases he : ((g, sid) : String × String) = (g', sid')
    · rw [he, getKV_setKV_self]
      rfl
    · rw [getKV_setKV_ne _ _ he]

theorem ds_poll_lastAckOf (s : DiskSrv.State) (now : Nat) (g sid g' sid' : String)
    (since limitRaw : JNum) :
    DiskSrv.lastAckOf (DiskSrv.poll s now g sid since limitRaw).1 g' sid' =
      DiskSrv.lastAckOf s g' sid' := by
  simp only [DiskSrv.poll]
  split
  · rfl
  · unfold DiskSrv.lastAckOf
    by_cases he : ((g, sid) : String × String) = (g', sid')
    · rw [he, getKV_setKV_self]
      rfl
    · rw [getKV_setKV_ne _ _ he]

theorem ds_ack_slaves (s : DiskSrv.State) (now : Nat) (g sid : String)
    (eid : Int) (status err : String) :
    (DiskSrv.ack s now g sid eid status err).1.slaves =
      if g = "" ∨ sid = "" ∨ eid = 0 ∨ status = "" then s.slaves
      else setKV s.slaves (g, sid)
        ⟨max ((getKV s.slaves (g, sid)).getD ⟨0, 0⟩).lastAckId eid, now⟩ := by
  simp only [DiskSrv.ack]
  split <;> rfl

/-! ### `lastAck` monotonicity along steps -/

theorem ms_step_lastAck_mono {s t : MainSrv.State} (h : MainSrv.Step s t)
    (g' sid' : String) :
    MainSrv.lastAckOf s g' sid' ≤ MainSrv.lastAckOf t g' sid' := by
  cases h with
  | ofPush now b =>
      exact le_of_eq (by unfold MainSrv.lastAckOf; rw [ms_push_slaveLastAck])
  | ofReg g sid => exact le_of_eq (ms_reg_lastAckOf s g sid g' sid').symm
  | ofPoll g sid since lim =>
      exact le_of_eq (by unfold MainSrv.lastAckOf; rw [ms_poll_slaveLastAck])
  | ofAck now g sid eid st er =>
      have hsh := ms_ack_slaveLastAck s now g sid eid st er
      conv_rhs => unfold MainSrv.lastAckOf
      rw [hsh]
      split
      · exact le_refl _
      · split
        next hlt =>
          by_cases he : ((g, sid) : String × String) = (g', sid')
          · injection he with h1 h2
            subst h1
            subst h2
            rw [getKV_setKV_self]
            exact le_of_lt hlt
          · rw [getKV_setKV_ne _ _ he]
            exact le_refl _
        · exact le_refl _

theorem ds_step_lastAck_mono {s t : DiskSrv.State} (h : DiskSrv.Step s t)
    (g' sid' : String) :
    DiskSrv.lastAckOf s g' sid' ≤ DiskSrv.lastAckOf t g' sid' := by
  cases h with
  | ofPush now b =>
      exact le_of_eq (by unfold DiskSrv.lastAckOf; rw [ds_push_slaves])
  | ofReg now g sid => exact le_of_eq (ds_reg_lastAckOf s now g sid g' sid').symm
  | ofPoll now g sid since lim =>
      exact le_of_eq (ds_poll_lastAckOf s now g sid g' sid' since lim).symm
  | ofAck now g sid eid st er =>
      have hsh := ds_ack_slaves s now g sid eid st er
      conv_rhs => unfold DiskSrv.lastAckOf
      rw [hsh]
      split
      · exact le_refl _
      · by_cases he : ((g, sid) : String × String) = (g', sid')
        · injection he with h1 h2
          subst h1
          subst h2
          rw [getKV_setKV_self]
          exact le_max_left _ _
        · rw [getKV_setKV_ne _ _ he]
          exact le_refl _

/-- Claim C4: in both the `src/server.js` and the disk
(`src/unnamed/part_001`) variants, a slave's recorded last-ack id never
decreases under any request, and after a (validation-passing) ack of
event id `E` it is at least `E` — acking a smaller id than the current
value leaves it unchanged by the `max`. -/
theorem claim_c4_ack_monotonic :
    (∀ s t : MainSrv.State, MainSrv.Step s t →
      ∀ g sid, MainSrv.lastAckOf s g sid ≤ MainSrv.lastAckOf t g sid) ∧
    (∀ (s : MainSrv.State) (now : Nat) (g sid : String) (eid : Int)
        (status err : String), eid ≠ 0 →
      eid ≤ MainSrv.lastAckOf (MainSrv.ack s now g sid eid status err).1 g sid) ∧
    (∀ s t : DiskSrv.State, DiskSrv.Step s t →
      ∀ g sid, DiskSrv.lastAckOf s g sid ≤ DiskSrv.lastAckOf t g sid) ∧
    (∀ (s : DiskSrv.State) (now : Nat) (g sid : String) (eid : Int)
        (status err : String), g ≠ "" → sid ≠ "" → eid ≠ 0 → status ≠ "" →
      eid ≤ DiskSrv.lastAckOf (DiskSrv.ack s now g sid eid status err).1 g sid) := by
  refine ⟨fun s t h g sid => ms_step_lastAck_mono h g sid, ?_,
    fun s t h g sid => ds_step_lastAck_mono h g sid, ?_⟩
  · intro s now g sid eid status err heid
    have hsh := ms_ack_slaveLastAck s now g sid eid status err
    unfold MainSrv.lastAckOf
    rw [hsh, if_neg heid]
    split
    next hlt =>
      rw [getKV_setKV_self]
      exact le_refl _
    next hlt =>
      exact le_of_not_lt hlt
  · intro s now g sid eid status err hg hsid heid hst
    have hsh := ds_ack_slaves s now g sid eid status err
    have hv : ¬ (g = "" ∨ sid = "" ∨ eid = 0 ∨ status = "") := by
      simp [hg, hsid, heid, hst]
    unfold DiskSrv.lastAckOf
    rw [hsh, if_neg hv, getKV_setKV_self]
    exact le_max_right _ _

/-- Witness for C4 at a concrete step and ack. -/
theorem claim_c4_witness :
    (MainSrv.lastAckOf MainSrv.initState "G1" "S1" ≤
      MainSrv.lastAckOf (MainSrv.ack MainSrv.initState 0 "G1" "S1" 5 "DONE" "").1
        "G1" "S1") ∧
    (5 : Int) ≤ MainSrv.lastAckOf
      (MainSrv.ack MainSrv.initState 0 "G1" "S1" 5 "DONE" "").1 "G1" "S1" ∧
    (7 : Int) ≤ DiskSrv.lastAckOf
      (DiskSrv.ack DiskSrv.initState 0 "G1" "S1" 7 "DONE" "").1 "G1" "S1" :=
  ⟨claim_c4_ack_monotonic.1 _ _
      (MainSrv.Step.ofAck MainSrv.initState 0 "G1" "S1" 5 "DONE" "") "G1" "S1",
   claim_c4_ack_monotonic.2.1 MainSrv.initState 0 "G1" "S1" 5 "DONE" ""
      (by decide),
   claim_c4_ack_monotonic.2.2.2 DiskSrv.initState 0 "G1" "S1" 7 "DONE" ""
      (by decide) (by decide) (by decide) (by decide)⟩

/-! ### Poll output lower bounds and `Steps` monotonicity -/

theorem ms_getGroupArrS_lastAckOf (s : MainSrv.State) (g g' sid' : String) :
    MainSrv.lastAckOf (MainSrv.getGroupArrS s g).1 g' sid' =
      MainSrv.lastAckOf s g' sid' := by
  unfold MainSrv.lastAckOf
  rw [ms_getGroupArrS_lastAck]

theorem ms_pollLoop_gt (effSince limit : Int) :
    ∀ (l : List MainSrv.Event) (n : Nat) (w : MainSrv.Wire),
      w ∈ MainSrv.pollLoop effSince limit l n → effSince < (w.id : Int) := by
  intro l
  induction l with
  | nil =>
      intro n w h
      rw [MainSrv.pollLoop] at h
      cases h
  | cons hd tl ih =>
      intro n w h
      rw [MainSrv.pollLoop] at h
      split at h
      · cases h
      · split at h
        · exact ih _ _ h
        · split at h
          · exact ih _ _ h
          next hgt =>
            rcases List.mem_cons.mp h with he | ht
            · subst he
              exact lt_of_not_ge (fun hle => hgt hle)
            · exact ih _ _ ht

theorem ms_poll_out (s : MainSrv.State) (g sid : String) (since limitRaw : JNum) :
    (MainSrv.poll s g sid since limitRaw).2 =
      MainSrv.pollLoop
        (max (match since with | some v => v | none => 0)
          (MainSrv.lastAckOf s g sid))
        (MainSrv.clampLimit limitRaw)
        (if g = "" then [] else MainSrv.eventsOf s g) 0 := by
  simp only [MainSrv.poll]
  by_cases hg : g = ""
  · subst hg
    simp [MainSrv.getGroupArrS, ms_addSlave_lastAckOf]
  · rw [ms_getGroupArrS_snd _ hg, if_neg hg]
    simp only [Option.getD_some, ms_getGroupArrS_lastAckOf, ms_addSlave_lastAckOf]
    rw [ms_addSlave_eventsOf]

theorem p0_pollLoop_gt (g : String) (since : JNum) (la : Int) (limit : JNum) :
    ∀ (l : List MemSrv.Event) (n : Nat) (ev : MemSrv.Event),
      ev ∈ MemSrv.pollLoop g since la limit l n → la < (ev.event_id : Int) := by
  intro l
  induction l with
  | nil =>
      intro n ev h
      rw [MemSrv.pollLoop] at h
      cases h
  | cons hd tl ih =>
      intro n ev h
      rw [MemSrv.pollLoop] at h
      split at h
      · exact ih _ _ h
      · split at h
        · exact ih _ _ h
        · split at h
          · exact ih _ _ h
          next hgt =>
            split at h
            · rcases List.mem_singleton.mp h with he
              subst he
              exact lt_of_not_ge (fun hle => hgt hle)
            · rcases List.mem_cons.mp h with he | ht
              · subst he
                exact lt_of_not_ge (fun hle => hgt hle)
              · exact ih _ _ ht

theorem ms_ack_lastAckOf_ge (s : MainSrv.State) (now : Nat) (g sid : String)
    (eid : Int) (status err : String) (heid : eid ≠ 0) :
    eid ≤ MainSrv.lastAckOf (MainSrv.ack s now g sid eid status err).1 g sid := by
  have hsh := ms_ack_slaveLastAck s now g sid eid status err
  unfold MainSrv.lastAckOf
  rw [hsh, if_neg heid]
  split
  next hlt =>
    rw [getKV_setKV_self]
    exact le_refl _
  next hlt =>
    exact le_of_not_lt hlt

theorem ms_steps_lastAck_mono {s t : MainSrv.State} (h : MainSrv.Steps s t)
    (g sid : String) :
    MainSrv.lastAckOf s g sid ≤ MainSrv.lastAckOf t g sid := by
  induction h with
  | refl => exact le_refl _
  | tail _ hstep ih => exact le_trans ih (ms_step_lastAck_mono hstep g sid)

theorem p0_push_lastAck (s : MemSrv.State) (now : Nat) (b : MemSrv.PushBody) :
    (MemSrv.push s now b).1.lastAck = s.lastAck := by
  simp only [MemSrv.push]
  split
  · rfl
  split
  · rfl
  split
  · split
    · rfl
    · simp [MemSrv.pushCreate, MemSrv.cleanup]
  · split
    · rfl
    split
    · rfl
    · simp [MemSrv.pushCreate, MemSrv.cleanup]

theorem p0_ack_lastAck (s : MemSrv.State) (g sid : String) (eid : Int) :
    (MemSrv.ack s g sid eid).1.lastAck =
      if eid = 0 then s.lastAck
      else if (getKV s.lastAck (defStr g "G1", defStr sid "S01")).getD 0 < eid
        then setKV s.lastAck (defStr g "G1", defStr sid "S01") eid
        else s.lastAck := by
  simp only [MemSrv.ack]
  split
  · rfl
  · split <;> rfl

theorem p0_ack_lastAckOf_ge (s : MemSrv.State) (g sid : String) (eid : Int)
    (heid : eid ≠ 0) :
    eid ≤ MemSrv.lastAckOf (MemSrv.ack s g sid eid).1 g sid := by
  have hsh := p0_ack_lastAck s g sid eid
  unfold MemSrv.lastAckOf
  rw [hsh, if_neg heid]
  split
  next hlt =>
    rw [getKV_setKV_self]
    exact le_refl _
  next hlt =>
    exact le_of_not_lt hlt

theorem p0_step_lastAck_mono {s t : MemSrv.State} (h : MemSrv.Step s t)
    (g' sid' : String) :
    MemSrv.lastAckOf s g' sid' ≤ MemSrv.lastAckOf t g' sid' := by
  cases h with
  | ofPush now b =>
      exact le_of_eq (by unfold MemSrv.lastAckOf; rw [p0_push_lastAck])
  | ofAck g sid eid =>
      have hsh := p0_ack_lastAck s g sid eid
      conv_rhs => unfold MemSrv.lastAckOf
      rw [hsh]
      split
      · exact le_refl _
      · split
        next hlt =>
          by_cases he : ((defStr g "G1", defStr sid "S01") : String × String) =
              (defStr g' "G1", defStr sid' "S01")
          · injection he with h1 h2
            unfold MemSrv.lastAckOf
            rw [← h1, ← h2, getKV_setKV_self]
            exact le_of_lt hlt
          · rw [getKV_setKV_ne _ _ he]
            exact le_refl _
        · exact le_refl _

theorem p0_steps_lastAck_mono {s t : MemSrv.State} (h : MemSrv.Steps s t)
    (g sid : String) :
    MemSrv.lastAckOf s g sid ≤ MemSrv.lastAckOf t g sid := by
  induction h with
  | refl => exact le_refl _
  | tail _ hstep ih => exact le_trans ih (p0_step_lastAck_mono hstep g sid)

/-- Claim C10: in the cursor-filtering variants (`src/server.js`, which
polls above `effSince = max(since, lastAck)`, and `src/unnamed/part_000`,
which filters `event_id <= lastAck` directly), a poll never returns an
event with id at or below the slave's recorded last ack — whether or not
that event was ever individually acknowledged — and once an ack of id
`E` is processed, every later poll by that slave, after any further
sequence of requests, only returns ids above `E`. -/
theorem claim_c10_lastack_cursor :
    (∀ (s : MainSrv.State) (g sid : String) (since limitRaw : JNum),
      ∀ w ∈ (MainSrv.poll s g sid since limitRaw).2,
        MainSrv.lastAckOf s g sid < (w.id : Int)) ∧
    (∀ (s : MemSrv.State) (g sid : String) (since limitRaw : JNum),
      ∀ ev ∈ MemSrv.poll s g sid since limitRaw,
        MemSrv.lastAckOf s g sid < (ev.event_id : Int)) ∧
    (∀ (s : MainSrv.State) (now : Nat) (g sid : String) (eid : Int)
        (status err : String) (t : MainSrv.State), eid ≠ 0 →
      MainSrv.Steps (MainSrv.ack s now g sid eid status err).1 t →
      ∀ (since limitRaw : JNum) (w : MainSrv.Wire),
        w ∈ (MainSrv.poll t g sid since limitRaw).2 → eid < (w.id : Int)) ∧
    (∀ (s : MemSrv.State) (g sid : String) (eid : Int) (t : MemSrv.State),
      eid ≠ 0 →
      MemSrv.Steps (MemSrv.ack s g sid eid).1 t →
      ∀ (since limitRaw : JNum) (ev : MemSrv.Event),
        ev ∈ MemSrv.poll t g sid since limitRaw → eid < (ev.event_id : Int)) := by
  have hA : ∀ (s : MainSrv.State) (g sid : String) (since limitRaw : JNum),
      ∀ w ∈ (MainSrv.poll s g sid since limitRaw).2,
        MainSrv.lastAckOf s g sid < (w.id : Int) := by
    intro s g sid since limitRaw w hw
    rw [ms_poll_out] at hw
    exact lt_of_le_of_lt (le_max_right _ _) (ms_pollLoop_gt _ _ _ _ _ hw)
  have hB : ∀ (s : MemSrv.State) (g sid : String) (since limitRaw : JNum),
      ∀ ev ∈ MemSrv.poll s g sid since limitRaw,
        MemSrv.lastAckOf s g sid < (ev.event_id : Int) := by
    intro s g sid since limitRaw ev hev
    simp only [MemSrv.poll] at hev
    exact p0_pollLoop_gt _ _ _ _ _ _ _ hev
  refine ⟨hA, hB, ?_, ?_⟩
  · intro s now g sid eid status err t heid hsteps since limitRaw w hw
    exact lt_of_le_of_lt
      (le_trans (ms_ack_lastAckOf_ge s now g sid eid status err heid)
        (ms_steps_lastAck_mono hsteps g sid))
      (hA t g sid since limitRaw w hw)
  · intro s g sid eid t heid hsteps since limitRaw ev hev
    exact lt_of_le_of_lt
      (le_trans (p0_ack_lastAckOf_ge s g sid eid heid)
        (p0_steps_lastAck_mono hsteps g sid))
      (hB t g sid since limitRaw ev hev)

/-- Concrete states for the C10 witness: two events, then ack of id 1. -/
def c10s2 : MainSrv.State :=
  (MainSrv.push
    (MainSrv.push MainSrv.initState 0
      ⟨"G1", "OPEN", 11, 1, "W1", "EURUSD", 0, 1, 1, 0, 0, 7⟩).1 0
    ⟨"G1", "OPEN", 12, 1, "W2", "EURUSD", 0, 1, 1, 0, 0, 7⟩).1

def c10t : MainSrv.State := (MainSrv.ack c10s2 1 "G1" "S1" 1 "DONE" "").1

def c10w : MainSrv.Wire :=
  ((MainSrv.poll c10t "G1" "S1" (some 0) (some 10)).2).getD 0
    ⟨0, "", "", 0, 0, 0, "", "", 0, 0, 0, 0, 0, 0⟩

def c10mT : MemSrv.State :=
  (MemSrv.ack
    (MemSrv.push
      (MemSrv.push MemSrv.initState 0 ⟨"G1", "OPEN", "U1", 1, 1, "E", 0, 0, 0⟩).1 0
      ⟨"G1", "OPEN", "U2", 1, 1, "E", 0, 0, 0⟩).1 "G1" "S1" 1).1

def c10me : MemSrv.Event :=
  (MemSrv.poll c10mT "G1" "S1" (some 0) (some 10)).getD 0
    ⟨0, "", "", "", 0, 0, "", 0, 0, 0, 0⟩

/-- Witness for C10: after acking id 1, the next poll only returns the
later event, in both cursor-filtering variants. -/
theorem claim_c10_witness :
    (1 : Int) < (c10w.id : Int) ∧ (1 : Int) < (c10me.event_id : Int) :=
  ⟨claim_c10_lastack_cursor.2.2.1 c10s2 1 "G1" "S1" 1 "DONE" "" c10t
      (by decide) Relation.ReflTransGen.refl (some 0) (some 10) c10w (by decide),
   claim_c10_lastack_cursor.2.2.2 _ "G1" "S1" 1 c10mT
      (by decide) Relation.ReflTransGen.refl (some 0) (some 10) c10me (by decide)⟩

/-! ### C9: the delivery-size bound -/

/-- Push bodies of the C9 counterexample: alternate OPEN/CLOSE on one
uid so that every push is accepted by the uid state machine. -/
def c9Body (n : Nat) : MemSrv.PushBody :=
  ⟨"G1", if n % 2 = 0 then "OPEN" else "CLOSE", "U", 1, 1, "E", 0, 0, 0⟩

/-- The store of `part_000` after `n` such pushes at time 0. -/
def c9State : Nat → MemSrv.State
  | 0 => MemSrv.initState
  | n + 1 => (MemSrv.push (c9State n) 0 (c9Body n)).1

theorem c9_inv : ∀ n, n ≤ 50000 →
    (c9State n).nextEventId = n + 1 ∧
    (c9State n).events.length = n ∧
    (c9State n).lastAck = [] ∧
    (∀ ev ∈ (c9State n).events, ev.group = "G1" ∧ 1 ≤ ev.event_id) ∧
    (c9State n).uidState =
      (if n = 0 then []
       else [(("G1", "U"),
         ⟨decide (n % 2 = 1), if n % 2 = 1 then "OPEN" else "CLOSE", 0⟩)]) := by
  intro n
  induction n with
  | zero =>
      intro _
      exact ⟨rfl, rfl, rfl, by simp [c9State, MemSrv.initState],
        by simp [c9State, MemSrv.initState]⟩
  | succ n ih =>
      intro hle
      obtain ⟨hnext, hlen, hack, hall, huid⟩ := ih (by omega)
      have htrim : ¬ (MemSrv.MAX_EVENTS < n + 1) := by
        simp only [MemSrv.MAX_EVENTS]
        omega
      have hstep : c9State (n + 1) = (MemSrv.push (c9State n) 0 (c9Body n)).1 := rfl
      rcases Nat.mod_two_eq_zero_or_one n with hpar | hpar
      · have hpar1 : (n + 1) % 2 = 1 := by omega
        have hst : (getKV (c9State n).uidState ("G1", "U")).getD ⟨false, "", 0⟩ =
            (if n = 0 then (⟨false, "", 0⟩ : MemSrv.UidState)
             else ⟨false, "CLOSE", 0⟩) := by
          rw [huid]
          by_cases h0 : n = 0
          · simp [h0, getKV]
          · simp [h0, getKV, hpar]
        rw [hstep]
        simp only [MemSrv.push, MemSrv.pushCreate, MemSrv.cleanup, c9Body, hpar,
          hst, defStr]
        by_cases h0 : n = 0
        · simp_all [setKV, List.length_append, htrim, hpar1, MemSrv.MAX_EVENTS,
            MemSrv.UID_AGE_MS, hnext, hlen, hack]
        · simp_all [setKV, List.length_append, htrim, hpar1, MemSrv.MAX_EVENTS,
            MemSrv.UID_AGE_MS, hnext, hlen, hack]
          rintro ev (h | h)
          · exact hall ev h
          · subst h
            refine ⟨rfl, ?_⟩
            show 1 ≤ n + 1
            omega
      · have hpar1 : (n + 1) % 2 = 0 := by omega
        have hn0 : n ≠ 0 := by omega
        have hst : (getKV (c9State n).uidState ("G1", "U")).getD ⟨false, "", 0⟩ =
            ⟨true, "OPEN", 0⟩ := by
          rw [huid]
          simp [hn0, getKV, hpar]
        rw [hstep]
        simp only [MemSrv.push, MemSrv.pushCreate, MemSrv.cleanup, c9Body, hpar,
          hst, defStr]
        simp_all [setKV, List.length_append, htrim, hpar1, MemSrv.MAX_EVENTS,
          MemSrv.UID_AGE_MS, hnext, hlen, hack]
        rintro ev (h | h)
        · exact hall ev h
        · subst h
          refine ⟨rfl, ?_⟩
          show 1 ≤ n + 1
          omega

theorem p0_pollLoop_all (g : String) (since : JNum) (la : Int) :
    ∀ (l : List MemSrv.Event) (n : Nat),
      (∀ ev ∈ l, ev.group = g ∧ jLe (ev.event_id : Int) since = false ∧
        ¬ ((ev.event_id : Int) ≤ la)) →
      MemSrv.pollLoop g since la none l n = l := by
  intro l
  induction l with
  | nil =>
      intro n _
      rw [MemSrv.pollLoop]
  | cons hd tl ih =>
      intro n hall
      obtain ⟨hg, hs, hla⟩ := hall hd (List.mem_cons_self _ _)
      rw [MemSrv.pollLoop]
      rw [if_neg (by simp [hg]), if_neg (by simp [hs]), if_neg hla,
        if_neg (by simp [jGe])]
      rw [ih (n + 1) (fun ev hev => hall ev (List.mem_cons_of_mem _ hev))]

/-- Claim C9 as stated is false: in `src/unnamed/part_000` a poll with a
non-numeric (`NaN`) limit never triggers the `out.length >= limit`
break, and a reachable 501-event log is returned in full. -/
theorem claim_c9_counterexample :
    500 < (MemSrv.poll (c9State 501) "G1" "S1" (some 0) none).length := by
  obtain ⟨hnext, hlen, hack, hall, huid⟩ := c9_inv 501 (by norm_num)
  have hla : MemSrv.lastAckOf (c9State 501) "G1" "S1" = 0 := by
    unfold MemSrv.lastAckOf
    rw [hack]
    rfl
  have hout : MemSrv.pollLoop "G1" (some 0) 0 none (c9State 501).events 0 =
      (c9State 501).events := by
    apply p0_pollLoop_all
    intro ev hev
    obtain ⟨hg, hid⟩ := hall ev hev
    refine ⟨hg, ?_, ?_⟩
    · simp only [jLe]
      simp only [decide_eq_false_iff_not]
      omega
    · omega
  unfold MemSrv.poll
  simp only [defStr, jMinC, Option.map_none']
  rw [show (if ("G1" : String) = "" then "G1" else "G1") = "G1" by simp, hla,
    hout, hlen]
  omega

theorem ms_clampLimit_pos (lim : JNum) : 1 ≤ MainSrv.clampLimit lim :=
  le_max_left _ _

theorem ms_clampLimit_le500 (lim : JNum) : MainSrv.clampLimit lim ≤ 500 :=
  max_le (by norm_num) (min_le_left _ _)

theorem ms_pollLoop_len (effSince limit : Int) :
    ∀ (l : List MainSrv.Event) (n : Nat),
      (n : Int) + ((MainSrv.pollLoop effSince limit l n).length : Int) ≤
        max limit (n : Int) := by
  intro l
  induction l with
  | nil =>
      intro n
      rw [MainSrv.pollLoop]
      simp
  | cons hd tl ih =>
      intro n
      rw [MainSrv.pollLoop]
      split
      next hnl =>
        simp
      next hnl =>
        have hlt : (n : Int) < limit := not_not.mp hnl
        split
        · exact ih n
        · split
          · exact ih n
          · have h2 := ih (n + 1)
            have hmax1 : max limit (((n + 1 : Nat) : Nat) : Int) = limit := by
              push_cast
              exact max_eq_left (by omega)
            rw [hmax1] at h2
            have hmax0 : max limit (n : Int) = limit := max_eq_left (by omega)
            rw [hmax0]
            simp only [List.length_cons]
            push_cast at h2 ⊢
            omega

theorem ms_pollLoop_len_le500 (eff limit : Int) (h1 : 1 ≤ limit)
    (h5 : limit ≤ 500) (l : List MainSrv.Event) :
    (MainSrv.pollLoop eff limit l 0).length ≤ 500 := by
  have h := ms_pollLoop_len eff limit l 0
  have hmax : max limit ((0 : Nat) : Int) = limit := max_eq_left (by omega)
  rw [hmax] at h
  have hInt : ((MainSrv.pollLoop eff limit l 0).length : Int) ≤ 500 := by omega
  exact_mod_cast hInt

theorem ms_poll_len_le (s : MainSrv.State) (g sid : String)
    (since limitRaw : JNum) :
    ((MainSrv.poll s g sid since limitRaw).2).length ≤ 500 := by
  rw [ms_poll_out]
  exact ms_pollLoop_len_le500 _ _ (ms_clampLimit_pos _) (ms_clampLimit_le500 _) _

theorem p0_pollLoop_len (g : String) (since : JNum) (la lv : Int) :
    ∀ (l : List MemSrv.Event) (n : Nat),
      (n : Int) + ((MemSrv.pollLoop g since la (some lv) l n).length : Int) ≤
        max lv ((n : Int) + 1) := by
  intro l
  induction l with
  | nil =>
      intro n
      rw [MemSrv.pollLoop]
      simp only [List.length_nil, Int.Nat.cast_ofNat_Int, add_zero]
      exact le_trans (by omega) (le_max_right _ _)
  | cons hd tl ih =>
      intro n
      rw [MemSrv.pollLoop]
      split
      · exact ih n
      · split
        · exact ih n
        · split
          · exact ih n
          · split
            next hge =>
              simp only [List.length_singleton]
              exact le_trans (by omega) (le_max_right _ _)
            next hge =>
              have hgt : ¬ (lv ≤ ((n + 1 : Nat) : Int)) := by
                simpa [jGe] using hge
              have h2 := ih (n + 1)
              have hmax1 : max lv (((n + 1 : Nat) : Int) + 1) = lv := by
                push_cast at hgt ⊢
                exact max_eq_left (by omega)
              rw [hmax1] at h2
              simp only [List.length_cons]
              push_cast at h2 hgt ⊢
              have : (n : Int) + 1 ≤ max lv ((n : Int) + 1) := le_max_right _ _
              omega

theorem p0_pollLoop_len_le500 (g : String) (since : JNum) (la lv : Int)
    (hlv : lv ≤ 500) (l : List MemSrv.Event) :
    (MemSrv.pollLoop g since la (some lv) l 0).length ≤ 500 := by
  have h := p0_pollLoop_len g since la lv l 0
  have hb : max lv (((0 : Nat) : Int) + 1) ≤ 500 := max_le hlv (by norm_num)
  have hInt : ((MemSrv.pollLoop g since la (some lv) l 0).length : Int) ≤ 500 := by
    omega
  exact_mod_cast hInt

theorem p0_poll_len_le (s : MemSrv.State) (g sid : String) (since : JNum)
    (l : Int) : (MemSrv.poll s g sid since (some l)).length ≤ 500 := by
  unfold MemSrv.poll
  simp only [jMinC, Option.map_some']
  exact p0_pollLoop_len_le500 _ _ _ _ (min_le_right _ _) _

theorem ds_pollLoop_len (g sid : String) (since : JNum) (lv : Int) :
    ∀ (l : List DiskSrv.Event) (n : Nat),
      (n : Int) + ((DiskSrv.pollLoop g sid since (some lv) l n).length : Int) ≤
        max lv ((n : Int) + 1) := by
  intro l
  induction l with
  | nil =>
      intro n
      rw [DiskSrv.pollLoop]
      simp only [List.length_nil, Int.Nat.cast_ofNat_Int, add_zero]
      exact le_trans (by omega) (le_max_right _ _)
  | cons hd tl ih =>
      intro n
      rw [DiskSrv.pollLoop]
      split
      · exact ih n
      · split
        · exact ih n
        · split
          · exact ih n
          · split
            next hge =>
              simp only [List.length_singleton]
              exact le_trans (by omega) (le_max_right _ _)
            next hge =>
              have hgt : ¬ (lv ≤ ((n + 1 : Nat) : Int)) := by
                simpa [jGe] using hge
              have h2 := ih (n + 1)
              have hmax1 : max lv (((n + 1 : Nat) : Int) + 1) = lv := by
                push_cast at hgt ⊢
                exact max_eq_left (by omega)
              rw [hmax1] at h2
              simp only [List.length_cons]
              push_cast at h2 hgt ⊢
              have : (n : Int) + 1 ≤ max lv ((n : Int) + 1) := le_max_right _ _
              omega

theorem ds_pollLoop_len_le500 (g sid : String) (since : JNum) (lv : Int)
    (hlv : lv ≤ 500) (l : List DiskSrv.Event) :
    (DiskSrv.pollLoop g sid since (some lv) l 0).length ≤ 500 := by
  have h := ds_pollLoop_len g sid since lv l 0
  have hb : max lv (((0 : Nat) : Int) + 1) ≤ 500 := max_le hlv (by norm_num)
  have hInt : ((DiskSrv.pollLoop g sid since (some lv) l 0).length : Int) ≤ 500 := by
    omega
  exact_mod_cast hInt

theorem ds_poll_len_le (s : DiskSrv.State) (now : Nat) (g sid : String)
    (since : JNum) (l : Int) :
    (((DiskSrv.poll s now g sid since (some l)).2).getD []).length ≤ 500 := by
  unfold DiskSrv.poll
  split
  · simp
  · simp only [Option.getD_some, DiskSrv.clampLimit, jMinC, jMaxC,
      Option.map_some']
    exact ds_pollLoop_len_le500 _ _ _ _ (min_le_right _ _) _

/-- Claim C9 (amended): `src/server.js` clamps the effective limit into
`[1, 500]` (defaulting a non-numeric limit to 200), so its poll returns
at most 500 events for every limit parameter; `src/unnamed/part_000` and
the disk variant return at most 500 events for every *numeric* limit,
but a non-numeric (NaN) limit disables their bound entirely (see the
counterexample). -/
theorem claim_c9_limit_clamp :
    (∀ (s : MainSrv.State) (g sid : String) (since limitRaw : JNum),
      ((MainSrv.poll s g sid since limitRaw).2).length ≤ 500) ∧
    (∀ (s : MemSrv.State) (g sid : String) (since : JNum) (l : Int),
      (MemSrv.poll s g sid since (some l)).length ≤ 500) ∧
    (∀ (s : DiskSrv.State) (now : Nat) (g sid : String) (since : JNum) (l : Int),
      (((DiskSrv.poll s now g sid since (some l)).2).getD []).length ≤ 500) :=
  ⟨ms_poll_len_le, p0_poll_len_le, ds_poll_len_le⟩

/-! ### `DiskSrv` invariant machinery -/

theorem mem_setKV_keys {κ α : Type} [DecidableEq κ] (m : List (κ × α)) (k : κ)
    (v : α) (k' : κ) :
    (∃ w, (k', w) ∈ setKV m k v) ↔ (∃ w, (k', w) ∈ m) ∨ k' = k := by
  induction m with
  | nil => simp [setKV, eq_comm]
  | cons hd tl ih =>
      obtain ⟨k0, v0⟩ := hd
      by_cases hk : k0 = k
      · subst hk
        simp only [setKV, if_pos rfl, List.mem_cons, Prod.mk.injEq, if_true,
          eq_self_iff_true]
        aesop
      · simp only [setKV, if_neg hk, List.mem_cons, Prod.mk.injEq]
        constructor
        · rintro ⟨w, (⟨h1, h2⟩ | hw)⟩
          · exact Or.inl ⟨v0, Or.inl ⟨h1, rfl⟩⟩
          · rcases ih.mp ⟨w, hw⟩ with ⟨w2, hw2⟩ | he
            · exact Or.inl ⟨w2, Or.inr hw2⟩
            · exact Or.inr he
        · rintro (⟨w, (⟨h1, h2⟩ | hw)⟩ | he)
          · exact ⟨v0, Or.inl ⟨h1, rfl⟩⟩
          · rcases ih.mpr (Or.inl ⟨w, hw⟩) with ⟨w2, hw2⟩
            exact ⟨w2, Or.inr hw2⟩
          · rcases ih.mpr (Or.inr he) with ⟨w2, hw2⟩
            exact ⟨w2, Or.inr hw2⟩

theorem ds_mem_slaveIdsFor {g sid : String}
    {sl : List ((String × String) × DiskSrv.SlaveRec)} :
    sid ∈ DiskSrv.slaveIdsFor g sl ↔ (sid ≠ "" ∧ ∃ v, ((g, sid), v) ∈ sl) := by
  unfold DiskSrv.slaveIdsFor
  rw [List.mem_filterMap]
  constructor
  · rintro ⟨⟨⟨kg, ks⟩, v⟩, hmem, hf⟩
    dsimp only at hf
    split at hf
    next hc =>
      obtain ⟨h1, h2⟩ := hc
      obtain rfl := Option.some.inj hf
      subst h1
      exact ⟨h2, v, hmem⟩
    next => cases hf
  · rintro ⟨hne, v, hmem⟩
    exact ⟨((g, sid), v), hmem, by simp [hne]⟩

theorem ds_slaveIdsFor_setKV_mono {g : String}
    (sl : List ((String × String) × DiskSrv.SlaveRec)) (k : String × String)
    (v : DiskSrv.SlaveRec) :
    ∀ sid ∈ DiskSrv.slaveIdsFor g sl,
      sid ∈ DiskSrv.slaveIdsFor g (setKV sl k v) := by
  intro sid h
  rw [ds_mem_slaveIdsFor] at h ⊢
  obtain ⟨hne, w, hw⟩ := h
  exact ⟨hne, (mem_setKV_keys sl k v (g, sid)).mpr (Or.inl ⟨w, hw⟩)⟩

theorem ds_slaveIdsFor_setKV_sub {g : String}
    (sl : List ((String × String) × DiskSrv.SlaveRec)) (k : String × String)
    (v : DiskSrv.SlaveRec) :
    ∀ sid ∈ DiskSrv.slaveIdsFor g (setKV sl k v),
      sid ∈ DiskSrv.slaveIdsFor g sl ∨ (k.1 = g ∧ k.2 = sid ∧ sid ≠ "") := by
  intro sid h
  rw [ds_mem_slaveIdsFor] at h
  obtain ⟨hne, w, hw⟩ := h
  rcases (mem_setKV_keys sl k v (g, sid)).mp ⟨w, hw⟩ with hin | he
  · exact Or.inl (ds_mem_slaveIdsFor.mpr ⟨hne, hin⟩)
  · right
    refine ⟨?_, ?_, hne⟩
    · rw [← he]
    · rw [← he]

theorem ds_slaveIdsFor_setKV_mem {g sid : String}
    (sl : List ((String × String) × DiskSrv.SlaveRec)) (v : DiskSrv.SlaveRec)
    (hs : sid ≠ "") :
    sid ∈ DiskSrv.slaveIdsFor g (setKV sl (g, sid) v) :=
  ds_mem_slaveIdsFor.mpr
    ⟨hs, (mem_setKV_keys sl (g, sid) v (g, sid)).mpr (Or.inr rfl)⟩

theorem ds_slaveIdsFor_setKV_other {g sid : String}
    (sl : List ((String × String) × DiskSrv.SlaveRec)) (k : String × String)
    (v : DiskSrv.SlaveRec) (hne : k.1 ≠ g) :
    sid ∈ DiskSrv.slaveIdsFor g (setKV sl k v) ↔
      sid ∈ DiskSrv.slaveIdsFor g sl := by
  rw [ds_mem_slaveIdsFor, ds_mem_slaveIdsFor]
  constructor
  · rintro ⟨h1, w, hw⟩
    rcases (mem_setKV_keys sl k v (g, sid)).mp ⟨w, hw⟩ with hin | he
    · exact ⟨h1, hin⟩
    · exact absurd (by rw [← he] : k.1 = g) hne
  · rintro ⟨h1, w, hw⟩
    exact ⟨h1, (mem_setKV_keys sl k v (g, sid)).mpr (Or.inl ⟨w, hw⟩)⟩

theorem ds_trim50k_sublist (l : List DiskSrv.Event) :
    (DiskSrv.trim50k l).Sublist l := by
  unfold DiskSrv.trim50k
  split
  · exact List.drop_sublist _ _
  · exact List.Sublist.refl _

theorem ds_trim50k_len (l : List DiskSrv.Event) :
    (DiskSrv.trim50k l).length ≤ 50000 := by
  unfold DiskSrv.trim50k
  split
  next h =>
    rw [List.length_drop]
    omega
  next h => omega

theorem ds_trim50k_eq_self {l : List DiskSrv.Event} (h : l.length ≤ 50000) :
    DiskSrv.trim50k l = l := by
  unfold DiskSrv.trim50k
  rw [if_neg (by omega)]

set_option linter.unusedVariables false

theorem ds_recFirst_map_id (g sid status err : String) (ts : Nat) (eid : Int) :
    ∀ l : List DiskSrv.Event,
      (DiskSrv.recFirst g sid status err ts eid l).map (fun ev => ev.id) =
        l.map (fun ev => ev.id) := by
  intro l
  induction l with
  | nil => rfl
  | cons hd tl ih =>
      rw [DiskSrv.recFirst]
      split
      · simp
      · simp [ih]

theorem ds_recFirst_map_dKey (g sid status err : String) (ts : Nat) (eid : Int) :
    ∀ l : List DiskSrv.Event,
      (DiskSrv.recFirst g sid status err ts eid l).map DiskSrv.dKey =
        l.map DiskSrv.dKey := by
  intro l
  induction l with
  | nil => rfl
  | cons hd tl ih =>
      rw [DiskSrv.recFirst]
      split
      · simp [DiskSrv.dKey]
      · simp [ih]

theorem ds_recFirst_len (g sid status err : String) (ts : Nat) (eid : Int)
    (l : List DiskSrv.Event) :
    (DiskSrv.recFirst g sid status err ts eid l).length = l.length := by
  have h := ds_recFirst_map_id g sid status err ts eid l
  have := congrArg List.length h
  simpa using this

/-- Backward pointwise description of `recFirst`: every event of the
updated list is an event of the original list, unchanged or with exactly
the new ack entry added. -/
theorem ds_recFirst_mem_back (g sid status err : String) (ts : Nat) (eid : Int) :
    ∀ l : List DiskSrv.Event,
      ∀ ev' ∈ DiskSrv.recFirst g sid status err ts eid l,
        ∃ ev ∈ l, ev'.id = ev.id ∧ ev'.group = ev.group ∧
          DiskSrv.dKey ev' = DiskSrv.dKey ev ∧
          (ev'.acks = ev.acks ∨
            ((ev.id : Int) = eid ∧ ev.group = g ∧
              ev'.acks = setKV ev.acks sid ⟨status, err, ts⟩)) := by
  intro l
  induction l with
  | nil =>
      intro ev' h
      cases h
  | cons hd tl ih =>
      intro ev' h
      rw [DiskSrv.recFirst] at h
      split at h
      next hc =>
        rcases List.mem_cons.mp h with he | ht
        · subst he
          exact ⟨hd, List.mem_cons_self _ _, rfl, rfl, rfl,
            Or.inr ⟨hc.1, hc.2, rfl⟩⟩
        · exact ⟨ev', List.mem_cons_of_mem _ ht, rfl, rfl, rfl, Or.inl rfl⟩
      next hc =>
        rcases List.mem_cons.mp h with he | ht
        · subst he
          exact ⟨ev', List.mem_cons_self _ _, rfl, rfl, rfl, Or.inl rfl⟩
        · obtain ⟨ev, hev, h1, h2, h3, h4⟩ := ih ev' ht
          exact ⟨ev, List.mem_cons_of_mem _ hev, h1, h2, h3, h4⟩

/-- Forward pointwise description of `recFirst`. -/
theorem ds_recFirst_mem_fwd (g sid status err : String) (ts : Nat) (eid : Int) :
    ∀ l : List DiskSrv.Event,
      ∀ ev ∈ l, ∃ ev' ∈ DiskSrv.recFirst g sid status err ts eid l,
        ev'.id = ev.id ∧ ev'.group = ev.group ∧
        (ev'.acks = ev.acks ∨ ev'.acks = setKV ev.acks sid ⟨status, err, ts⟩) := by
  intro l
  induction l with
  | nil =>
      intro ev h
      cases h
  | cons hd tl ih =>
      intro ev h
      rw [DiskSrv.recFirst]
      split
      next hc =>
        rcases List.mem_cons.mp h with he | ht
        · subst he
          exact ⟨_, List.mem_cons_self _ _, rfl, rfl, Or.inr rfl⟩
        · exact ⟨ev, List.mem_cons_of_mem _ ht, rfl, rfl, Or.inl rfl⟩
      next hc =>
        rcases List.mem_cons.mp h with he | ht
        · subst he
          exact ⟨ev, List.mem_cons_self _ _, rfl, rfl, Or.inl rfl⟩
        · obtain ⟨ev', hev', h1, h2, h3⟩ := ih ev ht
          exact ⟨ev', List.mem_cons_of_mem _ hev', h1, h2, h3⟩

theorem ds_recFirst_nomatch (g sid status err : String) (ts : Nat) (eid : Int) :
    ∀ l : List DiskSrv.Event,
      (∀ ev ∈ l, ¬ ((ev.id : Int) = eid ∧ ev.group = g)) →
      DiskSrv.recFirst g sid status err ts eid l = l := by
  intro l
  induction l with
  | nil => intro _; rfl
  | cons hd tl ih =>
      intro hno
      rw [DiskSrv.recFirst]
      rw [if_neg (hno hd (List.mem_cons_self _ _))]
      rw [ih (fun ev hev => hno ev (List.mem_cons_of_mem _ hev))]

theorem ds_gcKeep_false (g : String) (ids : List String) (ev : DiskSrv.Event)
    (h : DiskSrv.gcKeep g ids ev = false) :
    ev.group = g ∧ ∀ sid ∈ ids, getKV ev.acks sid ≠ none := by
  simp only [DiskSrv.gcKeep, Bool.or_eq_false_iff, bne_eq_false_iff_eq,
    List.any_eq_false, Option.isNone_iff_eq_none] at h
  exact ⟨h.1, h.2⟩

theorem ds_gcKeep_true (g : String) (ids : List String) (ev : DiskSrv.Event)
    (h : ev.group ≠ g ∨ ∃ sid ∈ ids, getKV ev.acks sid = none) :
    DiskSrv.gcKeep g ids ev = true := by
  simp only [DiskSrv.gcKeep, Bool.or_eq_true, bne_iff_ne, List.any_eq_true,
    Option.isNone_iff_eq_none]
  exact h

/-- The reachable-state invariant of the disk variant. -/
structure DsInv (s : DiskSrv.State) : Prop where
  nextPos : 1 ≤ s.nextId
  idPos : ∀ ev ∈ s.events, 0 < ev.id ∧ ev.id < s.nextId
  sorted : s.events.Pairwise (fun a b => a.id < b.id)
  keyUniq : s.events.Pairwise (fun a b => DiskSrv.dKey a ≠ DiskSrv.dKey b)
  lenLe : s.events.length ≤ 50000
  acksReg : ∀ ev ∈ s.events, ∀ sid entry, getKV ev.acks sid = some entry →
    sid ∈ DiskSrv.slaveIdsFor ev.group s.slaves
  lacking : ∀ g, DiskSrv.slaveIdsFor g s.slaves ≠ [] →
    ∀ ev ∈ s.events, ev.group = g →
      ∃ sid ∈ DiskSrv.slaveIdsFor g s.slaves, getKV ev.acks sid = none

theorem ds_inv_init : DsInv DiskSrv.initState := by
  constructor <;> simp [DiskSrv.initState]

theorem ds_inv_slaves_upsert {s : DiskSrv.State} (hinv : DsInv s)
    (g sid : String) (hsid : sid ≠ "") (v : DiskSrv.SlaveRec) :
    DsInv { s with slaves := setKV s.slaves (g, sid) v } := by
  obtain ⟨h1, h2, h3, h4, h5, h6, h7⟩ := hinv
  refine ⟨h1, h2, h3, h4, h5, ?_, ?_⟩
  · intro ev hev sid' entry hget
    exact ds_slaveIdsFor_setKV_mono _ _ _ _ (h6 ev hev sid' entry hget)
  · intro g' hne ev hev hgrp
    by_cases hold : DiskSrv.slaveIdsFor g' s.slaves = []
    · obtain ⟨sid0, hsid0⟩ := List.exists_mem_of_ne_nil _ hne
      refine ⟨sid0, hsid0, ?_⟩
      by_cases hacks : getKV ev.acks sid0 = none
      · exact hacks
      · obtain ⟨entry, hentry⟩ := Option.ne_none_iff_exists'.mp hacks
        have hreg := h6 ev hev sid0 entry hentry
        rw [hgrp, hold] at hreg
        cases hreg
    · obtain ⟨sid0, hsid0, hnone⟩ := h7 g' hold ev hev hgrp
      exact ⟨sid0, ds_slaveIdsFor_setKV_mono _ _ _ _ hsid0, hnone⟩

theorem ds_inv_push {s : DiskSrv.State} (hinv : DsInv s) (now : Nat)
    (b : DiskSrv.PushBody) : DsInv (DiskSrv.push s now b).1 := by
  obtain ⟨h1, h2, h3, h4, h5, h6, h7⟩ := hinv
  simp only [DiskSrv.push]
  split
  · exact ⟨h1, h2, h3, h4, h5, h6, h7⟩
  split
  · exact ⟨h1, h2, h3, h4, h5, h6, h7⟩
  split
  next x heq => exact ⟨h1, h2, h3, h4, h5, h6, h7⟩
  next heq =>
    have hnomatch : ∀ ev ∈ s.events,
        ¬ (ev.group = b.group ∧ ev.type = b.type ∧
           ev.master_ticket = b.master_ticket ∧ ev.open_time = b.open_time) := by
      intro ev hev hcon
      have := List.find?_eq_none.mp heq ev hev
      simp only [decide_eq_true_eq] at this
      exact this hcon
    dsimp only
    constructor
    · show 1 ≤ s.nextId + 1
      omega
    · intro ev' hev'
      rcases List.mem_append.mp ((ds_trim50k_sublist _).subset hev') with hold | hnew
      · obtain ⟨ha, hb⟩ := h2 ev' hold
        refine ⟨ha, ?_⟩
        show ev'.id < s.nextId + 1
        omega
      · rcases List.mem_singleton.mp hnew with rfl
        refine ⟨?_, ?_⟩
        · show 0 < s.nextId
          omega
        · show s.nextId < s.nextId + 1
          omega
    · refine List.Pairwise.sublist (ds_trim50k_sublist _) ?_
      rw [List.pairwise_append]
      refine ⟨h3, List.pairwise_singleton _ _, ?_⟩
      intro x hx y hy
      rcases List.mem_singleton.mp hy with rfl
      exact (h2 x hx).2
    · refine List.Pairwise.sublist (ds_trim50k_sublist _) ?_
      rw [List.pairwise_append]
      refine ⟨h4, List.pairwise_singleton _ _, ?_⟩
      intro x hx y hy hkey
      rcases List.mem_singleton.mp hy with rfl
      apply hnomatch x hx
      have h1k := congrArg (fun p => p.1) hkey
      have h2k := congrArg (fun p => p.2.1) hkey
      have h3k := congrArg (fun p => p.2.2.1) hkey
      have h4k := congrArg (fun p => p.2.2.2) hkey
      simp only [DiskSrv.dKey] at h1k h2k h3k h4k
      exact ⟨h1k, h2k, h3k, h4k⟩
    · exact ds_trim50k_len _
    · intro ev' hev' sid entry hget
      rcases List.mem_append.mp ((ds_trim50k_sublist _).subset hev') with hold | hnew
      · exact h6 ev' hold sid entry hget
      · rcases List.mem_singleton.mp hnew with rfl
        cases hget
    · intro g' hne ev' hev' hgrp
      rcases List.mem_append.mp ((ds_trim50k_sublist _).subset hev') with hold | hnew
      · exact h7 g' hne ev' hold hgrp
      · rcases List.mem_singleton.mp hnew with rfl
        obtain ⟨sid0, hsid0⟩ := List.exists_mem_of_ne_nil _ hne
        exact ⟨sid0, hsid0, rfl⟩

theorem ds_inv_poll {s : DiskSrv.State} (hinv : DsInv s) (now : Nat)
    (g sid : String) (since limitRaw : JNum) :
    DsInv (DiskSrv.poll s now g sid since limitRaw).1 := by
  simp only [DiskSrv.poll]
  split
  · exact hinv
  next hv =>
    have hsid : sid ≠ "" := by
      intro h
      exact hv (Or.inr h)
    exact ds_inv_slaves_upsert hinv g sid hsid _

theorem ds_inv_reg {s : DiskSrv.State} (hinv : DsInv s) (now : Nat)
    (g sid : String) :
    DsInv (DiskSrv.registerSlave s now g sid).1 := by
  simp only [DiskSrv.registerSlave]
  split
  · exact hinv
  next hv =>
    have hsid : sid ≠ "" := by
      intro h
      exact hv (Or.inr h)
    exact ds_inv_slaves_upsert hinv g sid hsid _

theorem ds_gcKeep_true_elim (g : String) (ids : List String)
    (ev : DiskSrv.Event) (h : DiskSrv.gcKeep g ids ev = true) :
    ev.group ≠ g ∨ ∃ sid ∈ ids, getKV ev.acks sid = none := by
  simpa only [DiskSrv.gcKeep, Bool.or_eq_true, bne_iff_ne, List.any_eq_true,
    Option.isNone_iff_eq_none] using h

theorem ds_inv_ack_shape {s : DiskSrv.State} (hinv : DsInv s) (ts : Nat)
    (g sid : String) (hsid : sid ≠ "") (eid : Int) (status err : String)
    (v : DiskSrv.SlaveRec) (fnd : Bool) :
    DsInv { s with
      slaves := setKV s.slaves (g, sid) v,
      events :=
        (if DiskSrv.slaveIdsFor g (setKV s.slaves (g, sid) v) = [] then
          (if fnd then
            DiskSrv.trim50k (DiskSrv.recFirst g sid status err ts eid s.events)
           else DiskSrv.recFirst g sid status err ts eid s.events)
         else
          DiskSrv.trim50k
            ((if fnd then
                DiskSrv.trim50k (DiskSrv.recFirst g sid status err ts eid s.events)
              else DiskSrv.recFirst g sid status err ts eid s.events).filter
              (DiskSrv.gcKeep g
                (DiskSrv.slaveIdsFor g (setKV s.slaves (g, sid) v))))) } := by
  obtain ⟨h1, h2, h3, h4, h5, h6, h7⟩ := hinv
  set es1 := DiskSrv.recFirst g sid status err ts eid s.events with hes1
  set es1T : List DiskSrv.Event := if fnd then DiskSrv.trim50k es1 else es1
    with hes1T
  set SL := setKV s.slaves (g, sid) v with hSL
  set ids := DiskSrv.slaveIdsFor g SL with hids
  have hidsne : ids ≠ [] := by
    intro h
    have hm := ds_slaveIdsFor_setKV_mem (g := g) s.slaves v hsid
    rw [← hSL, ← hids, h] at hm
    cases hm
  rw [if_neg hidsne]
  have hsubT : es1T.Sublist es1 := by
    rw [hes1T]
    split
    · exact ds_trim50k_sublist _
    · exact List.Sublist.refl _
  have hback : ∀ ev' ∈ es1, ∃ ev ∈ s.events, ev'.id = ev.id ∧
      ev'.group = ev.group ∧ DiskSrv.dKey ev' = DiskSrv.dKey ev ∧
      (ev'.acks = ev.acks ∨ ((ev.id : Int) = eid ∧ ev.group = g ∧
        ev'.acks = setKV ev.acks sid ⟨status, err, ts⟩)) := by
    rw [hes1]
    exact ds_recFirst_mem_back g sid status err ts eid s.events
  have hsub2 : (DiskSrv.trim50k (es1T.filter (DiskSrv.gcKeep g ids))).Sublist es1 :=
    ((ds_trim50k_sublist _).trans (List.filter_sublist _)).trans hsubT
  have hm1 : (es1.map (fun ev => ev.id)).Pairwise (· < ·) := by
    rw [hes1, ds_recFirst_map_id]
    exact (List.pairwise_map).mpr h3
  have hk1 : (es1.map DiskSrv.dKey).Pairwise (· ≠ ·) := by
    rw [hes1, ds_recFirst_map_dKey]
    exact (List.pairwise_map).mpr h4
  constructor
  · exact h1
  · intro ev' hev'
    obtain ⟨ev, hev, hid, _, _, _⟩ := hback ev' (hsub2.subset hev')
    rw [hid]
    exact h2 ev hev
  · exact List.Pairwise.sublist hsub2 ((List.pairwise_map).mp hm1)
  · exact List.Pairwise.sublist hsub2 ((List.pairwise_map).mp hk1)
  · exact ds_trim50k_len _
  · intro ev' hev' sid' entry hget
    obtain ⟨ev, hev, hid, hgrp, _, hacks⟩ := hback ev' (hsub2.subset hev')
    rw [hgrp]
    rcases hacks with he | ⟨hide, hgg, he⟩
    · rw [he] at hget
      rw [hSL]
      exact ds_slaveIdsFor_setKV_mono _ _ _ _ (h6 ev hev sid' entry hget)
    · rw [he] at hget
      by_cases hss : sid = sid'
      · subst hss
        rw [hgg, hSL]
        exact ds_slaveIdsFor_setKV_mem _ _ hsid
      · rw [getKV_setKV_ne _ _ hss] at hget
        rw [hSL]
        exact ds_slaveIdsFor_setKV_mono _ _ _ _ (h6 ev hev sid' entry hget)
  · intro g' hne' ev' hev' hgrp'
    have hevf : ev' ∈ es1T.filter (DiskSrv.gcKeep g ids) :=
      (ds_trim50k_sublist _).subset hev'
    obtain ⟨hmemT, hkeep⟩ := List.mem_filter.mp hevf
    by_cases hgg : g' = g
    · subst hgg
      rcases ds_gcKeep_true_elim g' ids ev' hkeep with hne2 | hex
      · exact absurd hgrp' hne2
      · exact hex
    · obtain ⟨ev, hev, hid, hgrp, _, hacks⟩ := hback ev' (hsubT.subset hmemT)
      have hacks2 : ev'.acks = ev.acks := by
        rcases hacks with he | ⟨_, hgrpg, _⟩
        · exact he
        · rw [hgrp', hgrpg] at hgrp
          exact absurd hgrp hgg
      have hgrpe : ev.group = g' := by
        rw [← hgrp, hgrp']
      have holdne : DiskSrv.slaveIdsFor g' s.slaves ≠ [] := by
        obtain ⟨x, hx⟩ := List.exists_mem_of_ne_nil _ hne'
        have hxo : x ∈ DiskSrv.slaveIdsFor g' s.slaves := by
          rw [hSL] at hx
          exact (ds_slaveIdsFor_setKV_other s.slaves (g, sid) v
            (by simpa using Ne.symm hgg)).mp hx
        exact List.ne_nil_of_mem hxo
      obtain ⟨sid0, hsid0, hnone⟩ := h7 g' holdne ev hev hgrpe
      refine ⟨sid0, ?_, by rw [hacks2]; exact hnone⟩
      rw [hSL]
      exact (ds_slaveIdsFor_setKV_other s.slaves (g, sid) v
        (by simpa using Ne.symm hgg)).mpr hsid0

theorem ds_inv_ack {s : DiskSrv.State} (hinv : DsInv s) (now : Nat)
    (g sid : String) (eid : Int) (status err : String) :
    DsInv (DiskSrv.ack s now g sid eid status err).1 := by
  simp only [DiskSrv.ack]
  split
  · exact hinv
  next hv =>
    have hsid : sid ≠ "" := by
      intro h
      exact hv (Or.inr (Or.inl h))
    exact ds_inv_ack_shape hinv now g sid hsid eid status err _ _

theorem ds_reachable_inv {s : DiskSrv.State} (h : DiskSrv.Reachable s) :
    DsInv s := by
  induction h with
  | init => exact ds_inv_init
  | step hr hstep ih =>
      cases hstep with
      | ofPush now b => exact ds_inv_push ih now b
      | ofReg now g sid => exact ds_inv_reg ih now g sid
      | ofPoll now g sid since lim => exact ds_inv_poll ih now g sid since lim
      | ofAck now g sid eid status err => exact ds_inv_ack ih now g sid eid status err

/-- Claim C3 (amended): in the disk variant, the ack-triggered garbage
collection removes an event only when the event belongs to the acked
group, the group has at least one currently-known slave, and every
currently-known slave of the group has an ack recorded for it — the ack
being processed by this very request included.  (The counterexample
shows the independent age eviction of `src/server.js` removing events
with zero known slaves, which is what the claim as stated rules out.) -/
theorem claim_c3_ack_gc_safety
    (s : DiskSrv.State) (hreach : DiskSrv.Reachable s) (now : Nat)
    (g sid : String) (eid : Int) (status err : String)
    (hg : g ≠ "") (hsid : sid ≠ "") (heid : eid ≠ 0) (hst : status ≠ "")
    (ev : DiskSrv.Event) (hev : ev ∈ s.events)
    (hgone : ∀ ev' ∈ (DiskSrv.ack s now g sid eid status err).1.events,
      ev'.id ≠ ev.id) :
    ev.group = g ∧
    DiskSrv.slaveIdsFor g (DiskSrv.ack s now g sid eid status err).1.slaves ≠ [] ∧
    ∀ sid' ∈ DiskSrv.slaveIdsFor g
        (DiskSrv.ack s now g sid eid status err).1.slaves,
      sid' = sid ∨ getKV ev.acks sid' ≠ none := by
  have hinv := ds_reachable_inv hreach
  have hv : ¬ (g = "" ∨ sid = "" ∨ eid = 0 ∨ status = "") := by
    simp [hg, hsid, heid, hst]
  simp only [DiskSrv.ack, hv, if_false] at hgone ⊢
  set SL := setKV s.slaves (g, sid)
    ⟨max ((getKV s.slaves (g, sid)).getD ⟨0, 0⟩).lastAckId eid, now⟩ with hSL
  set es1 := DiskSrv.recFirst g sid status err now eid s.events with hes1
  set ids := DiskSrv.slaveIdsFor g SL with hids
  have hlen1 : es1.length ≤ 50000 := by
    rw [hes1, ds_recFirst_len]
    exact hinv.lenLe
  have htrim1 : DiskSrv.trim50k es1 = es1 := ds_trim50k_eq_self hlen1
  have hT : (if s.events.any
        (fun x => decide ((x.id : Int) = eid ∧ x.group = g)) then
      DiskSrv.trim50k es1 else es1) = es1 := by
    rw [htrim1, ite_self]
  rw [hT] at hgone
  have hidsne : ids ≠ [] := by
    intro h
    have hm := ds_slaveIdsFor_setKV_mem (g := g) s.slaves
      ⟨max ((getKV s.slaves (g, sid)).getD ⟨0, 0⟩).lastAckId eid, now⟩ hsid
    rw [← hSL, ← hids, h] at hm
    cases hm
  rw [if_neg hidsne] at hgone
  have htrim2 : DiskSrv.trim50k (es1.filter (DiskSrv.gcKeep g ids)) =
      es1.filter (DiskSrv.gcKeep g ids) :=
    ds_trim50k_eq_self (le_trans (List.length_filter_le _ _) hlen1)
  rw [htrim2] at hgone
  obtain ⟨ev1, hev1, hid1, hgrp1, hacks1⟩ :=
    ds_recFirst_mem_fwd g sid status err now eid s.events ev hev
  rw [← hes1] at hev1
  have hkeep : DiskSrv.gcKeep g ids ev1 = false := by
    by_cases hk : DiskSrv.gcKeep g ids ev1 = true
    · exact absurd hid1 (hgone ev1 (List.mem_filter.mpr ⟨hev1, hk⟩))
    · exact Bool.not_eq_true _ ▸ eq_false_of_ne_true hk
  obtain ⟨hgrp2, hall⟩ := ds_gcKeep_false g ids ev1 hkeep
  refine ⟨by rw [← hgrp1, hgrp2], hidsne, ?_⟩
  intro sid' hsid'
  have hne' := hall sid' hsid'
  rcases hacks1 with he | he
  · right
    rw [he] at hne'
    exact hne'
  · by_cases hss : sid' = sid
    · exact Or.inl hss
    · right
      rw [he, getKV_setKV_ne _ _ (fun hh => hss hh.symm)] at hne'
      exact hne'

/-- Witness for the amended C3: acking the only event of a one-slave
group removes it, and the hypotheses and conclusion hold concretely. -/
theorem claim_c3_witness :
    (DiskSrv.PushBody.mk "G1" "OPEN" 100 5 "EURUSD" 0 1 1 0 0 7 "" 50).group =
      "G1" ∧
    ("G1" : String) = "G1" ∧
    DiskSrv.slaveIdsFor "G1"
      ((DiskSrv.ack
        (DiskSrv.push DiskSrv.initState 0
          ⟨"G1", "OPEN", 100, 5, "EURUSD", 0, 1, 1, 0, 0, 7, "", 50⟩).1
        2 "G1" "A" 1 "DONE" "").1).slaves ≠ [] := by
  refine ⟨rfl, rfl, ?_⟩
  have h := claim_c3_ack_gc_safety
    (DiskSrv.push DiskSrv.initState 0
      ⟨"G1", "OPEN", 100, 5, "EURUSD", 0, 1, 1, 0, 0, 7, "", 50⟩).1
    (DiskSrv.Reachable.step DiskSrv.Reachable.init
      (DiskSrv.Step.ofPush DiskSrv.initState 0
        ⟨"G1", "OPEN", 100, 5, "EURUSD", 0, 1, 1, 0, 0, 7, "", 50⟩))
    2 "G1" "A" 1 "DONE" "" (by decide) (by decide) (by decide) (by decide)
    ⟨1, "G1", "OPEN", 0, 100, 5, "EURUSD", 0, 1, 1, 0, 0, 7, "", 50, []⟩
    (by decide) (by decide)
  exact h.2.1

theorem ms_getGroupArrS_snd_empty (s : MainSrv.State) :
    (MainSrv.getGroupArrS s "").2 = none := by
  unfold MainSrv.getGroupArrS
  rw [if_pos rfl]

theorem ms_recordAckLast_nomatch (sid status err : String) (ts : Nat) (eid : Int)
    (l : List MainSrv.Event) (hno : ∀ ev ∈ l, (ev.id : Int) ≠ eid) :
    MainSrv.recordAckLast sid status err ts eid l = l := by
  cases l with
  | nil => rfl
  | cons hd tl =>
      rw [MainSrv.recordAckLast]
      rw [if_neg ?hany, if_neg (hno hd (List.mem_cons_self _ _))]
      case hany =>
        simp only [List.any_eq_true, beq_iff_eq, not_exists, not_and]
        intro e he
        exact hno e (List.mem_cons_of_mem _ he)

/-- Claim C7: acknowledging an event id that is not in the log is
answered `ok` and leaves every event untouched — in `src/server.js`
unconditionally, and in the disk variant (whose ack handler also runs
the GC sweep) in every reachable state. -/
theorem claim_c7_ack_gone_noop :
    (∀ (s : MainSrv.State) (now : Nat) (g sid : String) (eid : Int)
        (status err : String), eid ≠ 0 →
      (∀ ev ∈ MainSrv.eventsOf s g, (ev.id : Int) ≠ eid) →
      (MainSrv.ack s now g sid eid status err).2 = .ok ∧
      ∀ g', MainSrv.eventsOf (MainSrv.ack s now g sid eid status err).1 g' =
        MainSrv.eventsOf s g') ∧
    (∀ s : DiskSrv.State, DiskSrv.Reachable s → ∀ (now : Nat) (g sid : String)
        (eid : Int) (status err : String),
      g ≠ "" → sid ≠ "" → eid ≠ 0 → status ≠ "" →
      (∀ ev ∈ s.events, ¬ ((ev.id : Int) = eid ∧ ev.group = g)) →
      (DiskSrv.ack s now g sid eid status err).2 = .ok ∧
      (DiskSrv.ack s now g sid eid status err).1.events = s.events) := by
  constructor
  · intro s now g sid eid status err heid hno
    constructor
    · simp only [MainSrv.ack, if_neg heid]
      split
      · rfl
      · rfl
    · intro g'
      simp only [MainSrv.ack, if_neg heid]
      split
      next hnone =>
        rw [ms_getGroupArrS_eventsOf]
        split
        · rfl
        · rfl
      next arr harr =>
        have hgne : g ≠ "" := by
          intro hge
          subst hge
          rw [ms_getGroupArrS_snd_empty] at harr
          cases harr
        have harr2 : arr = MainSrv.eventsOf s g := by
          rw [ms_getGroupArrS_snd _ hgne] at harr
          have := Option.some.inj harr
          rw [← this]
          generalize hx : (if
            MainSrv.lastAckOf (MainSrv.addSlave s g sid) g sid < eid then
            { MainSrv.addSlave s g sid with
              slaveLastAck := setKV (MainSrv.addSlave s g sid).slaveLastAck
                (g, sid) eid }
            else MainSrv.addSlave s g sid) = s2
          have : MainSrv.eventsOf s2 g = MainSrv.eventsOf s g := by
            rw [← hx]
            split
            · rfl
            · rfl
          rw [this]
        unfold MainSrv.eventsOf
        by_cases hgg : g' = g
        · subst hgg
          rw [getKV_setKV_self]
          simp only [Option.getD_some]
          rw [harr2, ms_recordAckLast_nomatch sid status err now eid _ hno]
          rfl
        · rw [getKV_setKV_ne _ _ (fun hh => hgg hh.symm)]
          show MainSrv.eventsOf (MainSrv.getGroupArrS _ g).1 g' = _
          rw [ms_getGroupArrS_eventsOf]
          split
          · rfl
          · rfl
  · intro s hreach now g sid eid status err hg hsid heid hst hno
    have hinv := ds_reachable_inv hreach
    have hv : ¬ (g = "" ∨ sid = "" ∨ eid = 0 ∨ status = "") := by
      simp [hg, hsid, heid, hst]
    constructor
    · simp only [DiskSrv.ack, hv, if_false]
    · simp only [DiskSrv.ack, hv, if_false]
      set SL := setKV s.slaves (g, sid)
        ⟨max ((getKV s.slaves (g, sid)).getD ⟨0, 0⟩).lastAckId eid, now⟩ with hSL
      have hrec : DiskSrv.recFirst g sid status err now eid s.events = s.events :=
        ds_recFirst_nomatch g sid status err now eid s.events hno
      rw [hrec]
      have htrim1 : DiskSrv.trim50k s.events = s.events :=
        ds_trim50k_eq_self hinv.lenLe
      rw [htrim1, ite_self]
      have hidsne : DiskSrv.slaveIdsFor g SL ≠ [] := by
        intro h
        have hm := ds_slaveIdsFor_setKV_mem (g := g) s.slaves
          ⟨max ((getKV s.slaves (g, sid)).getD ⟨0, 0⟩).lastAckId eid, now⟩ hsid
        rw [← hSL, h] at hm
        cases hm
      rw [if_neg hidsne]
      have hall : ∀ ev ∈ s.events,
          DiskSrv.gcKeep g (DiskSrv.slaveIdsFor g SL) ev = true := by
        intro ev hev
        by_cases hgrp : ev.group = g
        · apply ds_gcKeep_true
          right
          by_cases hold : DiskSrv.slaveIdsFor g s.slaves = []
          · refine ⟨sid, ?_, ?_⟩
            · rw [hSL]
              exact ds_slaveIdsFor_setKV_mem _ _ hsid
            · by_cases hacks : getKV ev.acks sid = none
              · exact hacks
              · obtain ⟨entry, hentry⟩ := Option.ne_none_iff_exists'.mp hacks
                have hmem := hinv.acksReg ev hev sid entry hentry
                rw [hgrp, hold] at hmem
                cases hmem
          · obtain ⟨sid0, hsid0, hnone⟩ := hinv.lacking g hold ev hev hgrp
            refine ⟨sid0, ?_, hnone⟩
            rw [hSL]
            exact ds_slaveIdsFor_setKV_mono _ _ _ _ hsid0
        · exact ds_gcKeep_true _ _ _ (Or.inl hgrp)
      rw [List.filter_eq_self.mpr hall, htrim1]

/-- Concrete one-event states for the C7 witness. -/
def c7s : MainSrv.State :=
  (MainSrv.push MainSrv.initState 0
    ⟨"G1", "OPEN", 100, 5, "U7", "EURUSD", 0, 1, 1, 0, 0, 7⟩).1

def c7d : DiskSrv.State :=
  (DiskSrv.push DiskSrv.initState 0
    ⟨"G1", "OPEN", 100, 5, "EURUSD", 0, 1, 1, 0, 0, 7, "", 50⟩).1

/-- Witness for C7: acking the nonexistent id 99 is `ok` and leaves the
one-event logs untouched in both variants. -/
theorem claim_c7_witness :
    (MainSrv.ack c7s 1 "G1" "S1" 99 "DONE" "").2 = .ok ∧
    MainSrv.eventsOf (MainSrv.ack c7s 1 "G1" "S1" 99 "DONE" "").1 "G1" =
      MainSrv.eventsOf c7s "G1" ∧
    (DiskSrv.ack c7d 1 "G1" "S1" 99 "DONE" "").2 = .ok ∧
    (DiskSrv.ack c7d 1 "G1" "S1" 99 "DONE" "").1.events = c7d.events :=
  ⟨(claim_c7_ack_gone_noop.1 c7s 1 "G1" "S1" 99 "DONE" "" (by decide)
      (by decide)).1,
   (claim_c7_ack_gone_noop.1 c7s 1 "G1" "S1" 99 "DONE" "" (by decide)
      (by decide)).2 "G1",
   (claim_c7_ack_gone_noop.2 c7d
      (DiskSrv.Reachable.step DiskSrv.Reachable.init
        (DiskSrv.Step.ofPush DiskSrv.initState 0
          ⟨"G1", "OPEN", 100, 5, "EURUSD", 0, 1, 1, 0, 0, 7, "", 50⟩))
      1 "G1" "S1" 99 "DONE" "" (by decide) (by decide) (by decide) (by decide)
      (by decide)).1,
   (claim_c7_ack_gone_noop.2 c7d
      (DiskSrv.Reachable.step DiskSrv.Reachable.init
        (DiskSrv.Step.ofPush DiskSrv.initState 0
          ⟨"G1", "OPEN", 100, 5, "EURUSD", 0, 1, 1, 0, 0, 7, "", 50⟩))
      1 "G1" "S1" 99 "DONE" "" (by decide) (by decide) (by decide) (by decide)
      (by decide)).2⟩

/-! ### `MainSrv` invariant machinery -/

/-- The reachable-state invariant of `src/server.js`. -/
structure MsInv (s : MainSrv.State) : Prop where
  nextPos : 1 ≤ s.nextEventId
  idPos : ∀ g, ∀ ev ∈ MainSrv.eventsOf s g, 0 < ev.id ∧ ev.id < s.nextEventId
  sorted : ∀ g, (MainSrv.eventsOf s g).Pairwise (fun a b => a.id < b.id)
  grp : ∀ g, ∀ ev ∈ MainSrv.eventsOf s g,
    ev.group = g ∧ ev.key = (g, ev.type, ev.uid)
  seen : ∀ g, ∀ ev ∈ MainSrv.eventsOf s g,
    getKV s.seenEventKey ev.key = some ev.id
  ackLe : ∀ g, ∀ ev ∈ MainSrv.eventsOf s g, ∀ sid entry,
    getKV ev.ack sid = some entry → (ev.id : Int) ≤ MainSrv.lastAckOf s g sid

theorem ms_inv_init : MsInv MainSrv.initState := by
  constructor <;> simp [MainSrv.initState, MainSrv.eventsOf, getKV]

theorem ms_dropOldLoop_sublist (cutoff : Nat) :
    ∀ (l : List MainSrv.Event) (m : List (MainSrv.SKey × Nat)),
      (MainSrv.dropOldLoop cutoff l m).1.Sublist l := by
  intro l
  induction l with
  | nil =>
      intro m
      rw [MainSrv.dropOldLoop]
  | cons hd tl ih =>
      intro m
      rw [MainSrv.dropOldLoop]
      split
      · exact (ih _).trans (List.sublist_cons_self _ _)
      · exact List.Sublist.refl _

theorem ms_keys_distinct_of_seen {seenm : List (MainSrv.SKey × Nat)} :
    ∀ {arr : List MainSrv.Event},
      arr.Pairwise (fun a b => a.id < b.id) →
      (∀ ev ∈ arr, getKV seenm ev.key = some ev.id) →
      arr.Pairwise (fun a b => a.key ≠ b.key) := by
  intro arr
  induction arr with
  | nil => intro _ _; exact List.Pairwise.nil
  | cons hd tl ih =>
      intro hsort hseen
      obtain ⟨hhd, htl⟩ := List.pairwise_cons.mp hsort
      refine List.pairwise_cons.mpr ⟨?_, ih htl
        (fun ev hev => hseen ev (List.mem_cons_of_mem _ hev))⟩
      intro x hx hkey
      have h1 := hseen hd (List.mem_cons_self _ _)
      have h2 := hseen x (List.mem_cons_of_mem _ hx)
      rw [hkey, h2] at h1
      have := Option.some.inj h1
      exact absurd this (Nat.ne_of_gt (hhd x hx))

theorem ms_dropOldLoop_seen (cutoff : Nat) :
    ∀ (l : List MainSrv.Event) (m : List (MainSrv.SKey × Nat)),
      l.Pairwise (fun a b => a.key ≠ b.key) →
      (∀ ev ∈ l, getKV m ev.key = some ev.id) →
      ∀ ev ∈ (MainSrv.dropOldLoop cutoff l m).1,
        getKV (MainSrv.dropOldLoop cutoff l m).2 ev.key = some ev.id := by
  intro l
  induction l with
  | nil =>
      intro m _ _ ev hev
      rw [MainSrv.dropOldLoop] at hev
      cases hev
  | cons hd tl ih =>
      intro m hkeys hseen ev hev
      rw [MainSrv.dropOldLoop] at hev ⊢
      obtain ⟨hhd, htl⟩ := List.pairwise_cons.mp hkeys
      split at hev
      next hts =>
        rw [if_pos hts]
        refine ih (delKV m hd.key) htl ?_ ev hev
        intro e he
        rw [getKV_delKV_ne _ (hhd e he)]
        exact hseen e (List.mem_cons_of_mem _ he)
      next hts =>
        rw [if_neg hts]
        exact hseen ev hev

theorem ms_dropOldLoop_seen_other (cutoff : Nat) (gg : String) :
    ∀ (l : List MainSrv.Event) (m : List (MainSrv.SKey × Nat)),
      (∀ ev ∈ l, ev.key.1 = gg) →
      ∀ k : MainSrv.SKey, k.1 ≠ gg →
        getKV (MainSrv.dropOldLoop cutoff l m).2 k = getKV m k := by
  intro l
  induction l with
  | nil =>
      intro m _ k _
      rw [MainSrv.dropOldLoop]
  | cons hd tl ih =>
      intro m hall k hk
      rw [MainSrv.dropOldLoop]
      split
      next hts =>
        rw [ih (delKV m hd.key) (fun e he => hall e (List.mem_cons_of_mem _ he)) k hk]
        apply getKV_delKV_ne
        intro he
        apply hk
        rw [← he]
        exact hall hd (List.mem_cons_self _ _)
      next hts => rfl

/-- `MsInv` is preserved by `cleanupGroup`. -/
theorem ms_inv_cleanup {s : MainSrv.State} (hinv : MsInv s) (now : Nat)
    (g : String) : MsInv (MainSrv.cleanupGroup s now g) := by
  obtain ⟨h1, h2, h3, h4, h5, h6⟩ := hinv
  simp only [MainSrv.cleanupGroup]
  by_cases hg : g = ""
  · subst hg
    rw [ms_getGroupArrS_snd_empty]
    show MsInv s
    exact ⟨h1, h2, h3, h4, h5, h6⟩
  · rw [ms_getGroupArrS_snd _ hg]
    dsimp only
    set arr := MainSrv.eventsOf s g with harr
    set arr1 : List MainSrv.Event := if MainSrv.MAX_EVENTS < arr.length
      then arr.drop (arr.length - MainSrv.MAX_EVENTS) else arr with harr1
    have hsub1 : arr1.Sublist arr := by
      rw [harr1]
      split
      · exact List.drop_sublist _ _
      · exact List.Sublist.refl _
    set q := MainSrv.dropOldLoop (now - MainSrv.AGE_MS) arr1
      (MainSrv.getGroupArrS s g).1.seenEventKey with hq
    have hseenS := ms_getGroupArrS_seen s g
    have hsub2 : q.1.Sublist arr := (ms_dropOldLoop_sublist _ _ _).trans hsub1
    have heva : ∀ g', MainSrv.eventsOf
        { (MainSrv.getGroupArrS s g).1 with
            groupEvents := setKV (MainSrv.getGroupArrS s g).1.groupEvents g q.1,
            seenEventKey := q.2 } g' =
        if g' = g then q.1 else MainSrv.eventsOf s g' := by
      intro g'
      by_cases hgg : g' = g
      · subst hgg
        unfold MainSrv.eventsOf
        rw [getKV_setKV_self, if_pos rfl]
        rfl
      · rw [if_neg hgg]
        unfold MainSrv.eventsOf
        rw [getKV_setKV_ne _ _ (fun hh => hgg hh.symm)]
        have := ms_getGroupArrS_eventsOf s g g'
        unfold MainSrv.eventsOf at this
        exact this
    constructor
    · show 1 ≤ (MainSrv.getGroupArrS s g).1.nextEventId
      rw [ms_getGroupArrS_nextEventId]
      exact h1
    · intro g' ev hev
      rw [heva] at hev
      show 0 < ev.id ∧ ev.id < (MainSrv.getGroupArrS s g).1.nextEventId
      rw [ms_getGroupArrS_nextEventId]
      split at hev
      next hgg =>
        subst hgg
        exact h2 g' ev (hsub2.subset hev)
      next hgg => exact h2 g' ev hev
    · intro g'
      rw [heva]
      split
      next hgg =>
        subst hgg
        exact List.Pairwise.sublist hsub2 (h3 g')
      next hgg => exact h3 g'
    · intro g' ev hev
      rw [heva] at hev
      split at hev
      next hgg =>
        subst hgg
        exact h4 g' ev (hsub2.subset hev)
      next hgg => exact h4 g' ev hev
    · intro g' ev hev
      rw [heva] at hev
      show getKV q.2 ev.key = some ev.id
      split at hev
      next hgg =>
        subst hgg
        rw [hq]
        apply ms_dropOldLoop_seen (now - MainSrv.AGE_MS) arr1 _ ?_ ?_ ev
        · rw [← hq]
          exact hev
        · exact List.Pairwise.sublist hsub1
            (@ms_keys_distinct_of_seen s.seenEventKey _ (h3 g')
              (fun e he => h5 g' e he))
        · intro e he
          rw [hseenS]
          exact h5 g' e (hsub1.subset he)
      next hgg =>
        rw [hq]
        rw [ms_dropOldLoop_seen_other (now - MainSrv.AGE_MS) g arr1 _ ?_ ev.key ?_]
        · rw [hseenS]
          exact h5 g' ev hev
        · intro e he
          rw [(h4 g e (hsub1.subset he)).2]
        · rw [(h4 g' ev hev).2]
          intro hh
          exact hgg hh
    · intro g' ev hev sid entry hget
      rw [heva] at hev
      have hla : MainSrv.lastAckOf
          { (MainSrv.getGroupArrS s g).1 with
              groupEvents := setKV (MainSrv.getGroupArrS s g).1.groupEvents g q.1,
              seenEventKey := q.2 } g' sid = MainSrv.lastAckOf s g' sid := by
        show (getKV (MainSrv.getGroupArrS s g).1.slaveLastAck (g', sid)).getD 0 =
          MainSrv.lastAckOf s g' sid
        rw [ms_getGroupArrS_lastAck]
        rfl
      rw [hla]
      split at hev
      next hgg =>
        subst hgg
        exact h6 g' ev (hsub2.subset hev) sid entry hget
      next hgg => exact h6 g' ev hev sid entry hget

theorem ms_eventsOf_mk (n : Nat) (ge : List (String × List MainSrv.Event))
    (sk : List (MainSrv.SKey × Nat)) (sl : List ((String × String) × Int))
    (gs : List (String × List String)) (g : String) :
    MainSrv.eventsOf (MainSrv.State.mk n ge sk sl gs) g = (getKV ge g).getD [] :=
  rfl

theorem ms_reg_eventsOf (s : MainSrv.State) (g sid g' : String) :
    MainSrv.eventsOf (MainSrv.registerSlave s g sid) g' =
      MainSrv.eventsOf s g' := by
  simp only [MainSrv.registerSlave]
  split <;> rfl

theorem ms_reg_seen (s : MainSrv.State) (g sid : String) :
    (MainSrv.registerSlave s g sid).seenEventKey = s.seenEventKey := by
  simp only [MainSrv.registerSlave]
  split <;> rfl

theorem ms_reg_next (s : MainSrv.State) (g sid : String) :
    (MainSrv.registerSlave s g sid).nextEventId = s.nextEventId := by
  simp only [MainSrv.registerSlave]
  split <;> rfl

/-- `MsInv` is preserved by `POST /copier/registerSlave`. -/
theorem ms_inv_reg {s : MainSrv.State} (hinv : MsInv s) (g sid : String) :
    MsInv (MainSrv.registerSlave s g sid) := by
  obtain ⟨h1, h2, h3, h4, h5, h6⟩ := hinv
  refine ⟨?_, ?_, ?_, ?_, ?_, ?_⟩
  · rw [ms_reg_next]
    exact h1
  · intro g' ev hev
    rw [ms_reg_eventsOf] at hev
    rw [ms_reg_next]
    exact h2 g' ev hev
  · intro g'
    rw [ms_reg_eventsOf]
    exact h3 g'
  · intro g' ev hev
    rw [ms_reg_eventsOf] at hev
    exact h4 g' ev hev
  · intro g' ev hev
    rw [ms_reg_eventsOf] at hev
    rw [ms_reg_seen]
    exact h5 g' ev hev
  · intro g' ev hev sid' entry hget
    rw [ms_reg_eventsOf] at hev
    rw [ms_reg_lastAckOf]
    exact h6 g' ev hev sid' entry hget

theorem ms_poll_eventsOf (s : MainSrv.State) (g sid : String)
    (since limitRaw : JNum) (g' : String) :
    MainSrv.eventsOf (MainSrv.poll s g sid since limitRaw).1 g' =
      MainSrv.eventsOf s g' := by
  show MainSrv.eventsOf
    (MainSrv.getGroupArrS (MainSrv.addSlave s g sid) g).1 g' = _
  rw [ms_getGroupArrS_eventsOf, ms_addSlave_eventsOf]

theorem ms_poll_next (s : MainSrv.State) (g sid : String)
    (since limitRaw : JNum) :
    (MainSrv.poll s g sid since limitRaw).1.nextEventId = s.nextEventId := by
  show (MainSrv.getGroupArrS (MainSrv.addSlave s g sid) g).1.nextEventId = _
  rw [ms_getGroupArrS_nextEventId]
  rfl

theorem ms_poll_seen (s : MainSrv.State) (g sid : String)
    (since limitRaw : JNum) :
    (MainSrv.poll s g sid since limitRaw).1.seenEventKey = s.seenEventKey := by
  show (MainSrv.getGroupArrS (MainSrv.addSlave s g sid) g).1.seenEventKey = _
  rw [ms_getGroupArrS_seen]
  rfl

theorem ms_poll_lastAckOf (s : MainSrv.State) (g sid : String)
    (since limitRaw : JNum) (g' sid' : String) :
    MainSrv.lastAckOf (MainSrv.poll s g sid since limitRaw).1 g' sid' =
      MainSrv.lastAckOf s g' sid' := by
  show MainSrv.lastAckOf
    (MainSrv.getGroupArrS (MainSrv.addSlave s g sid) g).1 g' sid' = _
  rw [ms_getGroupArrS_lastAckOf, ms_addSlave_lastAckOf]

/-- `MsInv` is preserved by `GET /copier/events`. -/
theorem ms_inv_poll {s : MainSrv.State} (hinv : MsInv s) (g sid : String)
    (since limitRaw : JNum) : MsInv (MainSrv.poll s g sid since limitRaw).1 := by
  obtain ⟨h1, h2, h3, h4, h5, h6⟩ := hinv
  refine ⟨?_, ?_, ?_, ?_, ?_, ?_⟩
  · rw [ms_poll_next]
    exact h1
  · intro g' ev hev
    rw [ms_poll_eventsOf] at hev
    rw [ms_poll_next]
    exact h2 g' ev hev
  · intro g'
    rw [ms_poll_eventsOf]
    exact h3 g'
  · intro g' ev hev
    rw [ms_poll_eventsOf] at hev
    exact h4 g' ev hev
  · intro g' ev hev
    rw [ms_poll_eventsOf] at hev
    rw [ms_poll_seen]
    exact h5 g' ev hev
  · intro g' ev hev sid' entry hget
    rw [ms_poll_eventsOf] at hev
    rw [ms_poll_lastAckOf]
    exact h6 g' ev hev sid' entry hget

/-- The event row `POST /copier/push` appends on a non-duplicate hit. -/
def pushEvent (s : MainSrv.State) (now : Nat) (b : MainSrv.PushBody) :
    MainSrv.Event :=
  { id := (MainSrv.getGroupArrS s b.group).1.nextEventId, group := b.group,
    type := b.type, ts := now, master_ticket := b.master_ticket,
    open_time := b.open_time, uid := MainSrv.pushUid b, symbol := b.symbol,
    cmd := b.cmd, lots := b.lots, price := b.price, sl := b.sl, tp := b.tp,
    magic := b.magic, ack := [], key := MainSrv.pushKey b }

/-- `MsInv` holds for the intermediate state of the create branch of
`POST /copier/push`, before `cleanupGroup` runs. -/
theorem ms_inv_append {s : MainSrv.State} (hinv : MsInv s)
    (now : Nat) (b : MainSrv.PushBody) (hg : b.group ≠ "")
    (hseen : MainSrv.seenTruthy (getKV s.seenEventKey (MainSrv.pushKey b)) =
      none) :
    MsInv (MainSrv.State.mk
      ((MainSrv.getGroupArrS s b.group).1.nextEventId + 1)
      (setKV (MainSrv.getGroupArrS s b.group).1.groupEvents b.group
        (MainSrv.eventsOf s b.group ++ [pushEvent s now b]))
      (setKV (MainSrv.getGroupArrS s b.group).1.seenEventKey
        (MainSrv.pushKey b) (pushEvent s now b).id)
      (MainSrv.getGroupArrS s b.group).1.slaveLastAck
      (MainSrv.getGroupArrS s b.group).1.groupSlaves) := by
  obtain ⟨h1, h2, h3, h4, h5, h6⟩ := hinv
  have hkey : ∀ g', ∀ e ∈ MainSrv.eventsOf s g', e.key ≠ MainSrv.pushKey b := by
    intro g' e he hk
    have hs := h5 g' e he
    rw [← hk] at hseen
    rw [hs] at hseen
    have hid0 : e.id = 0 := by
      by_contra hne0
      simp [MainSrv.seenTruthy, hne0] at hseen
    have := (h2 g' e he).1
    omega
  have hid : (pushEvent s now b).id = s.nextEventId := by
    show (MainSrv.getGroupArrS s b.group).1.nextEventId = s.nextEventId
    exact ms_getGroupArrS_nextEventId s b.group
  have heva : ∀ g',
      (getKV (setKV (MainSrv.getGroupArrS s b.group).1.groupEvents b.group
        (MainSrv.eventsOf s b.group ++ [pushEvent s now b])) g').getD [] =
      if g' = b.group then MainSrv.eventsOf s b.group ++ [pushEvent s now b]
      else MainSrv.eventsOf s g' := by
    intro g'
    by_cases hgg : g' = b.group
    · subst hgg
      rw [getKV_setKV_self, if_pos rfl]
      rfl
    · rw [if_neg hgg, getKV_setKV_ne _ _ (fun hh => hgg hh.symm)]
      exact ms_getGroupArrS_eventsOf s b.group g'
  refine ⟨?_, ?_, ?_, ?_, ?_, ?_⟩
  · show 1 ≤ (MainSrv.getGroupArrS s b.group).1.nextEventId + 1
    omega
  · intro g' ev hev
    rw [ms_eventsOf_mk, heva] at hev
    show 0 < ev.id ∧ ev.id < (MainSrv.getGroupArrS s b.group).1.nextEventId + 1
    rw [ms_getGroupArrS_nextEventId]
    split at hev
    next hgg =>
      rcases List.mem_append.mp hev with hold | hnew
      · have := h2 b.group ev hold
        omega
      · have hq : ev = pushEvent s now b := List.mem_singleton.mp hnew
        subst hq
        rw [hid]
        omega
    next hgg =>
      have := h2 g' ev hev
      omega
  · intro g'
    rw [ms_eventsOf_mk, heva]
    split
    next hgg =>
      refine List.pairwise_append.mpr ⟨h3 b.group, List.pairwise_singleton _ _, ?_⟩
      intro a ha w hw
      have hq : w = pushEvent s now b := List.mem_singleton.mp hw
      subst hq
      rw [hid]
      exact (h2 b.group a ha).2
    next hgg => exact h3 g'
  · intro g' ev hev
    rw [ms_eventsOf_mk, heva] at hev
    split at hev
    next hgg =>
      subst hgg
      rcases List.mem_append.mp hev with hold | hnew
      · exact h4 b.group ev hold
      · have hq : ev = pushEvent s now b := List.mem_singleton.mp hnew
        subst hq
        exact ⟨rfl, rfl⟩
    next hgg => exact h4 g' ev hev
  · intro g' ev hev
    rw [ms_eventsOf_mk, heva] at hev
    show getKV (setKV (MainSrv.getGroupArrS s b.group).1.seenEventKey
      (MainSrv.pushKey b) (pushEvent s now b).id) ev.key = some ev.id
    rw [ms_getGroupArrS_seen]
    split at hev
    next hgg =>
      rcases List.mem_append.mp hev with hold | hnew
      · rw [getKV_setKV_ne _ _ (fun hh => hkey b.group ev hold hh.symm)]
        exact h5 b.group ev (hgg ▸ hold)
      · have hq : ev = pushEvent s now b := List.mem_singleton.mp hnew
        subst hq
        have hk : (pushEvent s now b).key = MainSrv.pushKey b := rfl
        rw [hk, getKV_setKV_self]
    next hgg =>
      rw [getKV_setKV_ne _ _ (fun hh => hkey g' ev hev hh.symm)]
      exact h5 g' ev hev
  · intro g' ev hev sid entry hget
    rw [ms_eventsOf_mk, heva] at hev
    have hla : MainSrv.lastAckOf (MainSrv.State.mk
        ((MainSrv.getGroupArrS s b.group).1.nextEventId + 1)
        (setKV (MainSrv.getGroupArrS s b.group).1.groupEvents b.group
          (MainSrv.eventsOf s b.group ++ [pushEvent s now b]))
        (setKV (MainSrv.getGroupArrS s b.group).1.seenEventKey
          (MainSrv.pushKey b) (pushEvent s now b).id)
        (MainSrv.getGroupArrS s b.group).1.slaveLastAck
        (MainSrv.getGroupArrS s b.group).1.groupSlaves) g' sid =
        MainSrv.lastAckOf s g' sid := by
      show (getKV (MainSrv.getGroupArrS s b.group).1.slaveLastAck
        (g', sid)).getD 0 = MainSrv.lastAckOf s g' sid
      rw [ms_getGroupArrS_lastAck]
      rfl
    rw [hla]
    split at hev
    next hgg =>
      subst hgg
      rcases List.mem_append.mp hev with hold | hnew
      · exact h6 b.group ev hold sid entry hget
      · have hq : ev = pushEvent s now b := List.mem_singleton.mp hnew
        subst hq
        have hnone : getKV (pushEvent s now b).ack sid = none := rfl
        rw [hnone] at hget
        cases hget
    next hgg => exact h6 g' ev hev sid entry hget

/-- `MsInv` is preserved by `POST /copier/push`. -/
theorem ms_inv_push {s : MainSrv.State} (hinv : MsInv s) (now : Nat)
    (b : MainSrv.PushBody) : MsInv (MainSrv.push s now b).1 := by
  simp only [MainSrv.push]
  split
  · exact hinv
  next hval =>
  split
  · exact hinv
  next =>
  split
  next prev hprev => exact hinv
  next hseen =>
  have hg : b.group ≠ "" := fun h => hval (Or.inl h)
  rw [ms_getGroupArrS_snd _ hg]
  dsimp only
  exact ms_inv_cleanup (ms_inv_append hinv now b hg hseen) now b.group

theorem ms_recordAckLast_map_id (sid status err : String) (ts : Nat)
    (eid : Int) : ∀ l : List MainSrv.Event,
    (MainSrv.recordAckLast sid status err ts eid l).map (fun e => e.id) =
      l.map (fun e => e.id) := by
  intro l
  induction l with
  | nil => rfl
  | cons hd tl ih =>
      rw [MainSrv.recordAckLast]
      split
      · rw [List.map_cons, List.map_cons, ih]
      · split
        · rfl
        · rfl

theorem ms_recordAckLast_mem_back (sid status err : String) (ts : Nat)
    (eid : Int) : ∀ (l : List MainSrv.Event),
    ∀ ev' ∈ MainSrv.recordAckLast sid status err ts eid l,
      ∃ ev ∈ l, ev' = ev ∨
        (ev' = { ev with ack := setKV ev.ack sid ⟨status, err, ts⟩ } ∧
          (ev.id : Int) = eid) := by
  intro l
  induction l with
  | nil =>
      intro ev' h
      rw [MainSrv.recordAckLast] at h
      cases h
  | cons hd tl ih =>
      intro ev' h
      rw [MainSrv.recordAckLast] at h
      split at h
      next =>
        rcases List.mem_cons.mp h with he | he
        · exact ⟨hd, List.mem_cons_self _ _, Or.inl he⟩
        · obtain ⟨ev, hmem, hcase⟩ := ih ev' he
          exact ⟨ev, List.mem_cons_of_mem _ hmem, hcase⟩
      next =>
        split at h
        next hid =>
          rcases List.mem_cons.mp h with he | he
          · exact ⟨hd, List.mem_cons_self _ _, Or.inr ⟨he, hid⟩⟩
          · exact ⟨ev', List.mem_cons_of_mem _ he, Or.inl rfl⟩
        next =>
          rcases List.mem_cons.mp h with he | he
          · exact ⟨hd, List.mem_cons_self _ _, Or.inl he⟩
          · exact ⟨ev', List.mem_cons_of_mem _ he, Or.inl rfl⟩

/-- `MsInv` is preserved by `POST /copier/ack`. -/
theorem ms_inv_ack {s : MainSrv.State} (hinv : MsInv s) (now : Nat)
    (g sid : String) (eid : Int) (status err : String) :
    MsInv (MainSrv.ack s now g sid eid status err).1 := by
  obtain ⟨h1, h2, h3, h4, h5, h6⟩ := hinv
  simp only [MainSrv.ack]
  split
  · exact ⟨h1, h2, h3, h4, h5, h6⟩
  next hne =>
  set S2 : MainSrv.State :=
    if MainSrv.lastAckOf (MainSrv.addSlave s g sid) g sid < eid
    then { MainSrv.addSlave s g sid with
      slaveLastAck := setKV (MainSrv.addSlave s g sid).slaveLastAck (g, sid) eid }
    else MainSrv.addSlave s g sid with hS2
  have hS2ev : ∀ g', MainSrv.eventsOf S2 g' = MainSrv.eventsOf s g' := by
    intro g'
    rw [hS2]
    split <;> rfl
  have hS2seen : S2.seenEventKey = s.seenEventKey := by
    rw [hS2]
    split <;> rfl
  have hS2next : S2.nextEventId = s.nextEventId := by
    rw [hS2]
    split <;> rfl
  have hS2mono : ∀ g' sid',
      MainSrv.lastAckOf s g' sid' ≤ MainSrv.lastAckOf S2 g' sid' := by
    intro g' sid'
    rw [hS2]
    split
    next hlt =>
      show MainSrv.lastAckOf s g' sid' ≤
        (getKV (setKV s.slaveLastAck (g, sid) eid) (g', sid')).getD 0
      by_cases hp : ((g, sid) : String × String) = (g', sid')
      · injection hp with hp1 hp2
        subst hp1
        subst hp2
        rw [getKV_setKV_self]
        exact le_of_lt hlt
      · rw [getKV_setKV_ne _ _ hp]
        exact le_refl _
    next => exact le_refl _
  have hS2ge : eid ≤ MainSrv.lastAckOf S2 g sid := by
    rw [hS2]
    split
    next hlt =>
      show eid ≤ (getKV (setKV s.slaveLastAck (g, sid) eid) (g, sid)).getD 0
      rw [getKV_setKV_self]
      exact le_refl _
    next hlt => exact le_of_not_lt hlt
  by_cases hg : g = ""
  · subst hg
    rw [ms_getGroupArrS_snd_empty]
    show MsInv S2
    refine ⟨?_, ?_, ?_, ?_, ?_, ?_⟩
    · rw [hS2next]
      exact h1
    · intro g' ev hev
      rw [hS2ev] at hev
      rw [hS2next]
      exact h2 g' ev hev
    · intro g'
      rw [hS2ev]
      exact h3 g'
    · intro g' ev hev
      rw [hS2ev] at hev
      exact h4 g' ev hev
    · intro g' ev hev
      rw [hS2ev] at hev
      rw [hS2seen]
      exact h5 g' ev hev
    · intro g' ev hev sid' entry hget
      rw [hS2ev] at hev
      exact le_trans (h6 g' ev hev sid' entry hget) (hS2mono g' sid')
  · rw [ms_getGroupArrS_snd _ hg]
    dsimp only
    have heva : ∀ g', MainSrv.eventsOf
        { (MainSrv.getGroupArrS S2 g).1 with
            groupEvents := setKV (MainSrv.getGroupArrS S2 g).1.groupEvents g
              (MainSrv.recordAckLast sid status err now eid
                (MainSrv.eventsOf S2 g)) } g' =
        if g' = g then MainSrv.recordAckLast sid status err now eid
          (MainSrv.eventsOf S2 g)
        else MainSrv.eventsOf s g' := by
      intro g'
      show (getKV (setKV (MainSrv.getGroupArrS S2 g).1.groupEvents g
        (MainSrv.recordAckLast sid status err now eid
          (MainSrv.eventsOf S2 g))) g').getD [] = _
      by_cases hgg : g' = g
      · subst hgg
        rw [getKV_setKV_self, if_pos rfl]
        rfl
      · rw [if_neg hgg, getKV_setKV_ne _ _ (fun hh => hgg hh.symm)]
        exact (ms_getGroupArrS_eventsOf S2 g g').trans (hS2ev g')
    refine ⟨?_, ?_, ?_, ?_, ?_, ?_⟩
    · show 1 ≤ (MainSrv.getGroupArrS S2 g).1.nextEventId
      rw [ms_getGroupArrS_nextEventId, hS2next]
      exact h1
    · intro g' ev' hev'
      rw [heva] at hev'
      show 0 < ev'.id ∧ ev'.id < (MainSrv.getGroupArrS S2 g).1.nextEventId
      rw [ms_getGroupArrS_nextEventId, hS2next]
      split at hev'
      next hgg =>
        obtain ⟨ev, hmem, hcase⟩ :=
          ms_recordAckLast_mem_back sid status err now eid _ ev' hev'
        rw [hS2ev g] at hmem
        rcases hcase with heq | ⟨heq, hid⟩ <;> rw [heq]
        · exact h2 g ev hmem
        · exact h2 g ev hmem
      next hgg => exact h2 g' ev' hev'
    · intro g'
      rw [heva]
      split
      next hgg =>
        have hm := ms_recordAckLast_map_id sid status err now eid
          (MainSrv.eventsOf S2 g)
        have hp : ((MainSrv.recordAckLast sid status err now eid
            (MainSrv.eventsOf S2 g)).map (fun e => e.id)).Pairwise
            (fun a b => a < b) := by
          rw [hm, hS2ev g]
          exact List.pairwise_map.mpr (h3 g)
        exact List.pairwise_map.mp hp
      next hgg => exact h3 g'
    · intro g' ev' hev'
      rw [heva] at hev'
      split at hev'
      next hgg =>
        subst hgg
        obtain ⟨ev, hmem, hcase⟩ :=
          ms_recordAckLast_mem_back sid status err now eid _ ev' hev'
        rw [hS2ev g'] at hmem
        rcases hcase with heq | ⟨heq, hid⟩ <;> rw [heq]
        · exact h4 g' ev hmem
        · exact h4 g' ev hmem
      next hgg => exact h4 g' ev' hev'
    · intro g' ev' hev'
      rw [heva] at hev'
      show getKV (MainSrv.getGroupArrS S2 g).1.seenEventKey ev'.key =
        some ev'.id
      rw [ms_getGroupArrS_seen, hS2seen]
      split at hev'
      next hgg =>
        subst hgg
        obtain ⟨ev, hmem, hcase⟩ :=
          ms_recordAckLast_mem_back sid status err now eid _ ev' hev'
        rw [hS2ev g'] at hmem
        rcases hcase with heq | ⟨heq, hid⟩ <;> rw [heq]
        · exact h5 g' ev hmem
        · exact h5 g' ev hmem
      next hgg => exact h5 g' ev' hev'
    · intro g' ev' hev' sid' entry hget
      have hla : MainSrv.lastAckOf
          { (MainSrv.getGroupArrS S2 g).1 with
              groupEvents := setKV (MainSrv.getGroupArrS S2 g).1.groupEvents g
                (MainSrv.recordAckLast sid status err now eid
                  (MainSrv.eventsOf S2 g)) } g' sid' =
          MainSrv.lastAckOf S2 g' sid' := by
        show (getKV (MainSrv.getGroupArrS S2 g).1.slaveLastAck
          (g', sid')).getD 0 = MainSrv.lastAckOf S2 g' sid'
        rw [ms_getGroupArrS_lastAck]
        rfl
      rw [heva] at hev'
      rw [hla]
      split at hev'
      next hgg =>
        subst hgg
        obtain ⟨ev, hmem, hcase⟩ :=
          ms_recordAckLast_mem_back sid status err now eid _ ev' hev'
        rw [hS2ev g'] at hmem
        rcases hcase with heq | ⟨heq, hid⟩
        · rw [heq] at hget ⊢
          exact le_trans (h6 g' ev hmem sid' entry hget) (hS2mono g' sid')
        · rw [heq] at hget ⊢
          have hget2 : getKV (setKV ev.ack sid ⟨status, err, now⟩) sid' =
              some entry := hget
          by_cases hsid : sid = sid'
          · show (ev.id : Int) ≤ MainSrv.lastAckOf S2 g' sid'
            rw [hid]
            rw [← hsid]
            exact hS2ge
          · rw [getKV_setKV_ne _ _ hsid] at hget2
            exact le_trans (h6 g' ev hmem sid' entry hget2) (hS2mono g' sid')
      next hgg =>
        exact le_trans (h6 g' ev' hev' sid' entry hget) (hS2mono g' sid')

/-- Every reachable state of the `src/server.js` copier satisfies
`MsInv`. -/
theorem ms_reachable_inv {s : MainSrv.State} (h : MainSrv.Reachable s) :
    MsInv s := by
  induction h with
  | init => exact ms_inv_init
  | step _ hstep ih =>
      cases hstep with
      | ofPush now b => exact ms_inv_push ih now b
      | ofReg g sid => exact ms_inv_reg ih g sid
      | ofPoll g sid since limitRaw => exact ms_inv_poll ih g sid since limitRaw
      | ofAck now g sid eid status err =>
          exact ms_inv_ack ih now g sid eid status err

theorem ds_find_key_eq (p : DiskSrv.Event → Bool) :
    ∀ (l : List DiskSrv.Event),
      l.Pairwise (fun a b => DiskSrv.dKey a ≠ DiskSrv.dKey b) →
      ∀ ev ∈ l, (∀ x, p x = true ↔ DiskSrv.dKey x = DiskSrv.dKey ev) →
        l.find? p = some ev := by
  intro l
  induction l with
  | nil =>
      intro _ ev hev _
      cases hev
  | cons hd tl ih =>
      intro hu ev hev hp
      obtain ⟨hhd, htl⟩ := List.pairwise_cons.mp hu
      rcases List.mem_cons.mp hev with he | he
      · subst he
        rw [List.find?_cons_of_pos _ ((hp ev).mpr rfl)]
      · by_cases hphd : p hd = true
        · exact absurd ((hp hd).mp hphd) (hhd ev he)
        · rw [List.find?_cons_of_neg _ hphd]
          exact ih htl ev he hp

/-- Claim C2: pushing an event whose dedup key matches an event still in
the log creates no new event and responds `dup` with the first event's
id.  In `src/server.js` the key is `(group, type, uid)` looked up in
`seenEventKey`; in `part_001` it is `(group, type, master_ticket,
open_time)` looked up by `events.find`.  In both variants the state is
returned unchanged. -/
theorem claim_c2_idempotent_push :
    (∀ s : MainSrv.State, MainSrv.Reachable s →
      ∀ (now : Nat) (b : MainSrv.PushBody) (ev : MainSrv.Event),
        ev ∈ MainSrv.eventsOf s b.group →
        ev.key = MainSrv.pushKey b →
        ¬ (b.group = "" ∨ b.type = "" ∨ b.symbol = "" ∨ b.master_ticket = 0) →
        ¬ (b.type ≠ "OPEN" ∧ b.type ≠ "CLOSE" ∧ b.type ≠ "MODIFY") →
        MainSrv.push s now b = (s, MainSrv.PushResp.dup ev.id)) ∧
    (∀ s : DiskSrv.State, DiskSrv.Reachable s →
      ∀ (now : Nat) (b : DiskSrv.PushBody) (ev : DiskSrv.Event),
        ev ∈ s.events →
        DiskSrv.dKey ev = (b.group, b.type, b.master_ticket, b.open_time) →
        ¬ (b.group = "" ∨ b.type = "") →
        ¬ (b.master_ticket = 0 ∨ b.symbol = "") →
        DiskSrv.push s now b = (s, DiskSrv.PushResp.dup ev.id)) := by
  constructor
  · intro s hreach now b ev hev hkey hval htype
    obtain ⟨h1, h2, h3, h4, h5, h6⟩ := ms_reachable_inv hreach
    have hseen : getKV s.seenEventKey (MainSrv.pushKey b) = some ev.id := by
      rw [← hkey]
      exact h5 b.group ev hev
    have hid : ev.id ≠ 0 := by
      have := (h2 b.group ev hev).1
      omega
    simp only [MainSrv.push, if_neg hval, if_neg htype]
    rw [hseen]
    simp [MainSrv.seenTruthy, hid]
  · intro s hreach now b ev hev hkey hv1 hv2
    obtain ⟨d1, d2, d3, d4, d5, d6, d7⟩ := ds_reachable_inv hreach
    simp only [DiskSrv.push, if_neg hv1, if_neg hv2]
    have hfind : s.events.find? (fun x =>
        decide (x.group = b.group ∧ x.type = b.type ∧
          x.master_ticket = b.master_ticket ∧ x.open_time = b.open_time)) =
        some ev := by
      apply ds_find_key_eq _ s.events d4 ev hev
      intro x
      rw [decide_eq_true_eq, hkey]
      unfold DiskSrv.dKey
      simp [Prod.ext_iff]
    rw [hfind]

/-- The C2 scenario's push body for the `src/server.js` embedding. -/
def c2b : MainSrv.PushBody :=
  ⟨"G1", "OPEN", 100, 5, "U1", "EURUSD", 0, 1, 1, 0, 0, 7⟩

/-- The event the first C2 push stores in `src/server.js`. -/
def c2ev : MainSrv.Event :=
  ⟨1, "G1", "OPEN", 0, 100, 5, "U1", "EURUSD", 0, 1, 1, 0, 0, 7, [],
    ("G1", "OPEN", "U1")⟩

/-- The C2 scenario's push body for the disk-variant embedding. -/
def c2db : DiskSrv.PushBody :=
  ⟨"G1", "OPEN", 100, 5, "EURUSD", 0, 1, 1, 0, 0, 7, "", 50⟩

/-- The event the first C2 push stores in the disk variant. -/
def c2dev : DiskSrv.Event :=
  ⟨1, "G1", "OPEN", 0, 100, 5, "EURUSD", 0, 1, 1, 0, 0, 7, "", 50, []⟩

/-- Witness for C2 at a concrete two-push run in both variants. -/
theorem claim_c2_witness :
    MainSrv.push (MainSrv.push MainSrv.initState 0 c2b).1 1 c2b =
      ((MainSrv.push MainSrv.initState 0 c2b).1, MainSrv.PushResp.dup 1) ∧
    DiskSrv.push (DiskSrv.push DiskSrv.initState 0 c2db).1 1 c2db =
      ((DiskSrv.push DiskSrv.initState 0 c2db).1, DiskSrv.PushResp.dup 1) := by
  constructor
  · exact claim_c2_idempotent_push.1 _
      (MainSrv.Reachable.step MainSrv.Reachable.init
        (MainSrv.Step.ofPush MainSrv.initState 0 c2b)) 1 c2b c2ev
      (by decide) (by decide) (by decide) (by decide)
  · exact claim_c2_idempotent_push.2 _
      (DiskSrv.Reachable.step DiskSrv.Reachable.init
        (DiskSrv.Step.ofPush DiskSrv.initState 0 c2db)) 1 c2db c2dev
      (by decide) (by decide) (by decide) (by decide)

theorem ms_pollLoop_mem (effSince limit : Int) :
    ∀ (l : List MainSrv.Event) (n : Nat) (w : MainSrv.Wire),
      w ∈ MainSrv.pollLoop effSince limit l n →
      ∃ ev ∈ l, w = MainSrv.toWire ev := by
  intro l
  induction l with
  | nil =>
      intro n w h
      rw [MainSrv.pollLoop] at h
      cases h
  | cons hd tl ih =>
      intro n w h
      rw [MainSrv.pollLoop] at h
      split at h
      · cases h
      · split at h
        · obtain ⟨ev, hm, he⟩ := ih _ _ h
          exact ⟨ev, List.mem_cons_of_mem _ hm, he⟩
        · split at h
          · obtain ⟨ev, hm, he⟩ := ih _ _ h
            exact ⟨ev, List.mem_cons_of_mem _ hm, he⟩
          · rcases List.mem_cons.mp h with he | he
            · exact ⟨hd, List.mem_cons_self _ _, he⟩
            · obtain ⟨ev, hm, he'⟩ := ih _ _ he
              exact ⟨ev, List.mem_cons_of_mem _ hm, he'⟩

theorem ms_pollLoop_sorted (effSince limit : Int) :
    ∀ (l : List MainSrv.Event), l.Pairwise (fun a b => a.id < b.id) →
      ∀ (n : Nat), (MainSrv.pollLoop effSince limit l n).Pairwise
        (fun a b => a.id < b.id) := by
  intro l
  induction l with
  | nil =>
      intro _ n
      rw [MainSrv.pollLoop]
      exact List.Pairwise.nil
  | cons hd tl ih =>
      intro hp n
      obtain ⟨hhd, htl⟩ := List.pairwise_cons.mp hp
      rw [MainSrv.pollLoop]
      split
      · exact List.Pairwise.nil
      · split
        · exact ih htl n
        · split
          · exact ih htl n
          · refine List.pairwise_cons.mpr ⟨?_, ih htl (n + 1)⟩
            intro w hw
            obtain ⟨ev, hm, he⟩ := ms_pollLoop_mem effSince limit tl (n + 1) w hw
            rw [he]
            exact hhd ev hm

theorem ds_pollLoop_sublist (g sid : String) (since limit : JNum) :
    ∀ (l : List DiskSrv.Event) (n : Nat),
      (DiskSrv.pollLoop g sid since limit l n).Sublist l := by
  intro l
  induction l with
  | nil =>
      intro n
      rw [DiskSrv.pollLoop]
  | cons hd tl ih =>
      intro n
      rw [DiskSrv.pollLoop]
      split
      · exact (ih n).cons _
      · split
        · exact (ih n).cons _
        · split
          · exact (ih n).cons _
          · split
            · exact (List.nil_sublist tl).cons₂ _
            · exact (ih (n + 1)).cons₂ _

theorem ds_pollLoop_props (g sid : String) (since limit : JNum) :
    ∀ (l : List DiskSrv.Event) (n : Nat),
      ∀ ev ∈ DiskSrv.pollLoop g sid since limit l n,
        ev.group = g ∧ jLe (ev.id : Int) since = false ∧
          getKV ev.acks sid = none := by
  intro l
  induction l with
  | nil =>
      intro n ev h
      rw [DiskSrv.pollLoop] at h
      cases h
  | cons hd tl ih =>
      intro n ev h
      rw [DiskSrv.pollLoop] at h
      split at h
      · exact ih _ _ h
      next hgrp =>
        split at h
        · exact ih _ _ h
        next hle =>
          split at h
          · exact ih _ _ h
          next hack =>
            split at h
            · have he : ev = hd := List.mem_singleton.mp h
              subst he
              exact ⟨not_ne_iff.mp hgrp, Bool.eq_false_iff.mpr hle,
                Option.not_isSome_iff_eq_none.mp hack⟩
            · rcases List.mem_cons.mp h with he | he
              · subst he
                exact ⟨not_ne_iff.mp hgrp, Bool.eq_false_iff.mpr hle,
                  Option.not_isSome_iff_eq_none.mp hack⟩
              · exact ih _ _ he

theorem ds_poll_none (s : DiskSrv.State) (now : Nat) {g sid : String}
    (hg : g = "" ∨ sid = "") (since limitRaw : JNum) :
    (DiskSrv.poll s now g sid since limitRaw).2 = none := by
  simp only [DiskSrv.poll, if_pos hg]

theorem ds_poll_out (s : DiskSrv.State) (now : Nat) {g sid : String}
    (hg : ¬ (g = "" ∨ sid = "")) (since limitRaw : JNum) :
    (DiskSrv.poll s now g sid since limitRaw).2 =
      some (DiskSrv.pollLoop g sid since (DiskSrv.clampLimit limitRaw)
        s.events 0) := by
  simp only [DiskSrv.poll, if_neg hg]

/-- Claim C1 (amended): for every poll request whose `limit` parameter is
numeric and at least 1, the returned list is in ascending id order,
contains at most `limit` events, contains no event with id ≤ `since`,
and contains no event the polling slave has already acknowledged.  In
`src/server.js` (first conjunct) acknowledgment is an entry in the
event's `ack` map; in `part_001` (second conjunct) it is an entry in the
event's `acks` map.  For `limit < 1` both variants clamp the effective
limit up to 1, so the bound proved here needs `1 ≤ limit`. -/
theorem claim_c1_poll_filtering :
    (∀ s : MainSrv.State, MainSrv.Reachable s →
      ∀ (g sid : String) (sv l : Int), 1 ≤ l →
        ((MainSrv.poll s g sid (some sv) (some l)).2).Pairwise
            (fun a b => a.id < b.id) ∧
          (((MainSrv.poll s g sid (some sv) (some l)).2).length : Int) ≤ l ∧
          (∀ w ∈ (MainSrv.poll s g sid (some sv) (some l)).2,
            sv < (w.id : Int)) ∧
          (∀ w ∈ (MainSrv.poll s g sid (some sv) (some l)).2,
            ∀ ev ∈ MainSrv.eventsOf s g, ev.id = w.id →
              getKV ev.ack sid = none)) ∧
    (∀ s : DiskSrv.State, DiskSrv.Reachable s →
      ∀ (now : Nat) (g sid : String) (sv l : Int)
        (out : List DiskSrv.Event), 1 ≤ l →
        (DiskSrv.poll s now g sid (some sv) (some l)).2 = some out →
        out.Pairwise (fun a b => a.id < b.id) ∧
          ((out.length : Int) ≤ l) ∧
          (∀ ev ∈ out, sv < (ev.id : Int)) ∧
          (∀ ev ∈ out, getKV ev.acks sid = none)) := by
  constructor
  · intro s hreach g sid sv l hl
    obtain ⟨h1, h2, h3, h4, h5, h6⟩ := ms_reachable_inv hreach
    have hout : (MainSrv.poll s g sid (some sv) (some l)).2 =
        MainSrv.pollLoop (max sv (MainSrv.lastAckOf s g sid))
          (MainSrv.clampLimit (some l))
          (if g = "" then [] else MainSrv.eventsOf s g) 0 :=
      ms_poll_out s g sid (some sv) (some l)
    have hsorted0 : (if g = "" then [] else MainSrv.eventsOf s g).Pairwise
        (fun a b => a.id < b.id) := by
      split
      · exact List.Pairwise.nil
      · exact h3 g
    refine ⟨?_, ?_, ?_, ?_⟩
    · rw [hout]
      exact ms_pollLoop_sorted _ _ _ hsorted0 0
    · rw [hout]
      have hlen := ms_pollLoop_len (max sv (MainSrv.lastAckOf s g sid))
        (MainSrv.clampLimit (some l))
        (if g = "" then [] else MainSrv.eventsOf s g) 0
      have hcl : MainSrv.clampLimit (some l) ≤ l := by
        unfold MainSrv.clampLimit
        exact max_le hl (min_le_right _ _)
      have hpos := ms_clampLimit_pos (some l)
      have hmax : max (MainSrv.clampLimit (some l)) (((0 : Nat) : Int)) =
          MainSrv.clampLimit (some l) := max_eq_left (by omega)
      rw [hmax] at hlen
      omega
    · intro w hw
      rw [hout] at hw
      have hgt := ms_pollLoop_gt _ _ _ _ _ hw
      have hs : sv ≤ max sv (MainSrv.lastAckOf s g sid) := le_max_left _ _
      omega
    · intro w hw ev hev hid
      rw [hout] at hw
      have hgt := ms_pollLoop_gt _ _ _ _ _ hw
      by_contra hne
      obtain ⟨entry, hentry⟩ := Option.ne_none_iff_exists'.mp hne
      have hle := h6 g ev hev sid entry hentry
      have hla : MainSrv.lastAckOf s g sid ≤
          max sv (MainSrv.lastAckOf s g sid) := le_max_right _ _
      omega
  · intro s hreach now g sid sv l out hl hpoll
    obtain ⟨d1, d2, d3, d4, d5, d6, d7⟩ := ds_reachable_inv hreach
    by_cases hgs : g = "" ∨ sid = ""
    · rw [ds_poll_none s now hgs (some sv) (some l)] at hpoll
      cases hpoll
    · rw [ds_poll_out s now hgs (some sv) (some l)] at hpoll
      injection hpoll with hpoll
      subst hpoll
      have hcl : DiskSrv.clampLimit (some l) = some (min (max 1 l) 500) := rfl
      refine ⟨?_, ?_, ?_, ?_⟩
      · exact List.Pairwise.sublist
          (ds_pollLoop_sublist g sid (some sv) (DiskSrv.clampLimit (some l))
            s.events 0) d3
      · rw [hcl]
        have hlen := ds_pollLoop_len g sid (some sv) (min (max 1 l) 500)
          s.events 0
        have hlv1 : 1 ≤ min (max 1 l) 500 :=
          le_min (le_max_left _ _) (by norm_num)
        have hlvl : min (max 1 l) 500 ≤ l :=
          le_trans (min_le_left _ _) (max_le hl (le_refl l))
        have hmax : max (min (max 1 l) 500) (((0 : Nat) : Int) + 1) =
            min (max 1 l) 500 := max_eq_left (by omega)
        rw [hmax] at hlen
        omega
      · intro ev hev
        have hprops := ds_pollLoop_props g sid (some sv)
          (DiskSrv.clampLimit (some l)) s.events 0 ev hev
        have hfalse := hprops.2.1
        have : ¬ ((ev.id : Int) ≤ sv) := by
          intro hcon
          rw [show jLe (ev.id : Int) (some sv) = decide ((ev.id : Int) ≤ sv)
            from rfl] at hfalse
          rw [decide_eq_true hcon] at hfalse
          cases hfalse
        omega
      · intro ev hev
        exact (ds_pollLoop_props g sid (some sv)
          (DiskSrv.clampLimit (some l)) s.events 0 ev hev).2.2

/-- Witness for C1 at a concrete one-event store in both variants
(`since = 0`, `limit = 10`). -/
theorem claim_c1_witness :
    (((MainSrv.poll (MainSrv.push MainSrv.initState 0 c2b).1 "G1" "S01"
          (some 0) (some 10)).2).Pairwise (fun a b => a.id < b.id) ∧
      (((MainSrv.poll (MainSrv.push MainSrv.initState 0 c2b).1 "G1" "S01"
          (some 0) (some 10)).2).length : Int) ≤ 10 ∧
      (∀ w ∈ (MainSrv.poll (MainSrv.push MainSrv.initState 0 c2b).1 "G1" "S01"
          (some 0) (some 10)).2, (0 : Int) < (w.id : Int)) ∧
      (∀ w ∈ (MainSrv.poll (MainSrv.push MainSrv.initState 0 c2b).1 "G1" "S01"
          (some 0) (some 10)).2,
        ∀ ev ∈ MainSrv.eventsOf (MainSrv.push MainSrv.initState 0 c2b).1 "G1",
          ev.id = w.id → getKV ev.ack "S01" = none)) ∧
    ([c2dev].Pairwise (fun a b => a.id < b.id) ∧
      ((([c2dev] : List DiskSrv.Event).length : Int) ≤ 10) ∧
      (∀ ev ∈ [c2dev], (0 : Int) < (ev.id : Int)) ∧
      (∀ ev ∈ [c2dev], getKV ev.acks "S01" = none)) := by
  constructor
  · exact claim_c1_poll_filtering.1 (MainSrv.push MainSrv.initState 0 c2b).1
      (MainSrv.Reachable.step MainSrv.Reachable.init
        (MainSrv.Step.ofPush MainSrv.initState 0 c2b)) "G1" "S01" 0 10
      (by decide)
  · exact claim_c1_poll_filtering.2 (DiskSrv.push DiskSrv.initState 0 c2db).1
      (DiskSrv.Reachable.step DiskSrv.Reachable.init
        (DiskSrv.Step.ofPush DiskSrv.initState 0 c2db)) 1 "G1" "S01" 0 10
      [c2dev] (by decide) (by decide)
